import Mathlib

/-!
Shallow embedding of the ring-board game core from
`src/prototype/src/components/Board.tsx` (the authority for every claim),
with the shared type declarations from the repository's `types/game.ts`.

Modelling conventions:
* JavaScript arrays become `List`; out-of-range reads use `List.getD` with a
  default slot that behaves like the code does on an `undefined` entry
  (`filled` is false, no tile).
* A JS `Set<number>` becomes a `List Nat` kept duplicate-free in insertion
  order (`Set` iteration order is insertion order); `addSet` is `Set.add`.
* A JS `Record<number, number>` becomes an insertion-ordered association list
  `List (Nat × Int)`; `rset` is the spread-update `\x7b...m, [k]: v\x7d` and
  `rgetD` is `m[k] ?? d`.
* JS `%` on possibly-negative operands is `Int.tmod`; the board code always
  normalises indices with `((x % N) + N) % N`, embedded as `wrapIdx`.
* React `useState` cells become fields of explicit state structures; the
  `setX(fn)` functional updates are sequential state passing, while plain
  closure reads (`playerResources`, `players` inside `triggerTileEffects`)
  read the render-time snapshot, exactly as the closures do.
* The display-only `rotationOffset` (a float of degrees) is omitted: it feeds
  only the SVG transform and no claim mentions it.
-/

inductive TileTypeId where
  | resource | victory | movement | swap | skip | block | transfer | blank
  deriving DecidableEq, Repr

inductive MovementDirection where
  | left | right
  deriving DecidableEq, Repr

inductive RotationDirection where
  | clockwise | counterclockwise
  deriving DecidableEq, Repr

inductive GamePhase where
  | setup | playing
  deriving DecidableEq, Repr

/-- `TileData` from `types/game.ts`. -/
structure TileData where
  id : String
  typeId : TileTypeId
  value : Option Int := none
  ownerId : Option Nat := none
  direction : Option MovementDirection := none
  deriving DecidableEq, Repr

/-- `TileSlot` from `types/game.ts` (named `Slot` to avoid clashing with the
component of the same name). -/
structure Slot where
  id : Int
  filled : Bool
  tile : Option TileData := none
  deriving DecidableEq, Repr

/-- Reading an out-of-range array entry: `undefined?.filled` is falsy and
`undefined` has no tile; `id` is irrelevant at every use site. -/
instance : Inhabited Slot := ⟨⟨0, false, none⟩⟩

/-- `Player` from `types/game.ts`; the `color` string is display-only and
omitted.  `slotIndex` is an `Int` because the movement-tile effect computes it
with JS `%`, which can in principle leave the integer range `[0, N)`. -/
structure Player where
  id : Nat
  slotIndex : Int
  deriving DecidableEq, Repr

instance : Inhabited Player := ⟨⟨0, 0⟩⟩

/-- `((x % N) + N) % N`, the index-normalisation pattern used throughout the
board code (`Int.emod` already yields this value, but we keep the source
shape). -/
def wrapIdx (n : Nat) (x : Int) : Nat :=
  (((x % (n : Int)) + (n : Int)) % (n : Int)).toNat

/-- `direction === 'clockwise' ? 1 : -1`. -/
def dirStep (direction : RotationDirection) : Int :=
  match direction with
  | .clockwise => 1
  | .counterclockwise => -1

/-- JS `Set.add`: append unless already present. -/
def addSet (s : List Nat) (x : Nat) : List Nat :=
  if x ∈ s then s else s ++ [x]

/-- Association-list read `m[k] ?? d` on a JS record. -/
def rgetD (m : List (Nat × Int)) (k : Nat) (d : Int) : Int :=
  match m.find? (fun e => e.1 = k) with
  | some e => e.2
  | none => d

/-- Spread-update `\x7b ...m, [k]: v \x7d` on a JS record: replace in place if
the key exists (JS objects keep the original insertion position), else
append. -/
def rset (m : List (Nat × Int)) (k : Nat) (v : Int) : List (Nat × Int) :=
  if m.any (fun e => e.1 = k) then m.map (fun e => if e.1 = k then (k, v) else e)
  else m ++ [(k, v)]

/-- Array access `slots[i]` where `i` is a JS number that may be negative. -/
def slotAtInt (slots : List Slot) (i : Int) : Slot :=
  if 0 ≤ i then slots.getD i.toNat default else default

/-- `createInitialSlots` in Board.tsx. -/
def createInitialSlots (count : Nat) : List Slot :=
  (List.range count).map (fun i => ⟨(i : Int), false, none⟩)

/-- `Math.round(x)` for the nonnegative rational `num/den` (JS rounds half
up); exact-arithmetic model of the float expression in `createPlayers`. -/
def jsRound (num den : Nat) : Nat :=
  (2 * num + den) / (2 * den)

/-- `createPlayers` in Board.tsx: ideal position `i * (slotCount/playerCount)`
rounded, modulo `slotCount`. -/
def createPlayers (playerCount slotCount : Nat) : List Player :=
  if playerCount = 0 then []
  else (List.range playerCount).map
    (fun i => ⟨i, (jsRound (i * slotCount) playerCount % slotCount : Nat)⟩)

/-- `areAllSlotsFilled` in Board.tsx. -/
def areAllSlotsFilled (currentSlots : List Slot) : Bool :=
  currentSlots.all (fun slot => slot.filled)

/-- One dequeue step of the BFS in `findConnectedGroup`, written with explicit
fuel so that it is structurally recursive; `findConnectedGroup` supplies fuel
provably larger than the number of steps the loop can take, so the fuel-out
branch is never reached. -/
def bfsAux (slotCount : Nat) (currentSlots : List Slot) :
    Nat → List Nat → List Nat → List Nat → List Nat
  | 0, _, _, group => group
  | _ + 1, [], _, group => group
  | fuel + 1, slotIndex :: rest, visited, group =>
    if slotIndex ∈ visited then bfsAux slotCount currentSlots fuel rest visited group
    else
      let visited' := visited ++ [slotIndex]
      let slot := currentSlots.getD slotIndex default
      if slot.filled then
        let group' := addSet group slotIndex
        let leftNeighbor := wrapIdx slotCount ((slotIndex : Int) - 1 + (slotCount : Int))
        let rightNeighbor := wrapIdx slotCount ((slotIndex : Int) + 1)
        let queue₁ := if leftNeighbor ∉ visited' ∧
            (currentSlots.getD leftNeighbor default).filled then rest ++ [leftNeighbor] else rest
        let queue₂ := if rightNeighbor ∉ visited' ∧
            (currentSlots.getD rightNeighbor default).filled then queue₁ ++ [rightNeighbor]
          else queue₁
        bfsAux slotCount currentSlots fuel queue₂ visited' group'
      else bfsAux slotCount currentSlots fuel rest visited' group

/-- `findConnectedGroup` in Board.tsx: BFS over the circular adjacency,
collecting filled slots. -/
def findConnectedGroup (slotCount : Nat) (startSlotIndex : Nat)
    (currentSlots : List Slot) : List Nat :=
  bfsAux slotCount currentSlots
    (2 * (max slotCount currentSlots.length) + 1) [startSlotIndex] [] []

/-- `getLeadingEdge` in Board.tsx: members whose next slot in the travel
direction is outside the group. -/
def getLeadingEdge (slotCount : Nat) (group : List Nat)
    (direction : RotationDirection) : List Nat :=
  group.filter (fun index => wrapIdx slotCount ((index : Int) + dirStep direction) ∉ group)

/-- The inner `for (dist = 1; dist < slotCount; dist++)` scan of
`findDistanceToCollision`: first distance at which a filled slot outside the
group appears. -/
def scanCollision (slotCount : Nat) (workingSlots : List Slot) (group : List Nat)
    (direction : RotationDirection) (edgeIndex : Nat) : Option Nat :=
  (List.range' 1 (slotCount - 1)).find? (fun dist =>
    let checkIndex := wrapIdx slotCount ((edgeIndex : Int) + dirStep direction * (dist : Int))
    (workingSlots.getD checkIndex default).filled ∧ checkIndex ∉ group)

/-- `findDistanceToCollision` in Board.tsx: minimum over the leading edge,
starting from `slotCount` (a full circle means unconstrained). -/
def findDistanceToCollision (slotCount : Nat) (group : List Nat)
    (direction : RotationDirection) (workingSlots : List Slot) : Nat :=
  (getLeadingEdge slotCount group direction).foldl
    (fun minDistance edgeIndex =>
      match scanCollision slotCount workingSlots group direction edgeIndex with
      | some dist => min minDistance dist
      | none => minDistance)
    slotCount

/-- destination index of a group member under `applyGroupMove`. -/
def shiftIdx (slotCount : Nat) (direction : RotationDirection) (steps : Nat)
    (oldIndex : Nat) : Nat :=
  wrapIdx slotCount ((oldIndex : Int) + dirStep direction * (steps : Int))

/-- The "clear old positions" pass of `applyGroupMove`: each old index keeps
its slot id but loses its tile and filled flag. -/
def clearOldPositions (group : List Nat) (workingSlots : List Slot) : List Slot :=
  group.foldl
    (fun newSlots oldIndex =>
      newSlots.set oldIndex { newSlots.getD oldIndex default with tile := none, filled := false })
    workingSlots

/-- The "set new positions" pass of `applyGroupMove`: write the tile of the
original `workingSlots` at each old index into its shifted position. -/
def writeNewPositions (slotCount : Nat) (direction : RotationDirection) (steps : Nat)
    (workingSlots : List Slot) (group : List Nat) (init : List Slot) : List Slot :=
  group.foldl
    (fun newSlots oldIndex =>
      let newIndex := shiftIdx slotCount direction steps oldIndex
      newSlots.set newIndex
        { newSlots.getD newIndex default with
          filled := true, tile := (workingSlots.getD oldIndex default).tile })
    init

/-- The "calculate new group indices" pass of `applyGroupMove`. -/
def shiftedGroup (slotCount : Nat) (direction : RotationDirection) (steps : Nat)
    (group : List Nat) : List Nat :=
  group.foldl (fun acc oldIndex => addSet acc (shiftIdx slotCount direction steps oldIndex)) []

/-- `applyGroupMove` in Board.tsx: clear every old position (keeping the slot
id), then write each tile of the original `workingSlots` into its shifted
position; also returns the shifted group. -/
def applyGroupMove (slotCount : Nat) (group : List Nat)
    (direction : RotationDirection) (steps : Nat) (workingSlots : List Slot) :
    List Slot × List Nat :=
  (writeNewPositions slotCount direction steps workingSlots group
    (clearOldPositions group workingSlots),
   shiftedGroup slotCount direction steps group)

/-- The `collisionIndices` computation of the chain-collision loop body:
filled slots just ahead of the leading edge that are not yet in the group. -/
def collisionIndicesOf (slotCount : Nat) (direction : RotationDirection)
    (workingSlots : List Slot) (currentGroup : List Nat) : List Nat :=
  (getLeadingEdge slotCount currentGroup direction).foldl
    (fun acc (edgeIndex : Nat) =>
      let collisionIndex := wrapIdx slotCount ((edgeIndex : Int) + dirStep direction)
      if (workingSlots.getD collisionIndex default).filled ∧ collisionIndex ∉ currentGroup then
        addSet acc collisionIndex
      else acc) []

/-- Merging step of the loop body: absorb the whole connected group found at
every collision index. -/
def mergeCollisionGroups (slotCount : Nat) (workingSlots : List Slot)
    (collisionIndices : List Nat) (currentGroup : List Nat) : List Nat :=
  collisionIndices.foldl
    (fun currentGroup collisionIndex =>
      (findConnectedGroup slotCount collisionIndex workingSlots).foldl addSet currentGroup)
    currentGroup

/-- One pass of the `while (remainingMovement > 0)` body of `moveGroup`:
either travel the whole remaining distance (no collision reachable), or close
the gap to the obstruction, merge with every connected group at the collision
points, and carry the merged body one further step.  Returns the new working
slots, group, and remaining movement. -/
def moveLoopStep (slotCount : Nat) (direction : RotationDirection)
    (workingSlots : List Slot) (currentGroup : List Nat) (remainingMovement : Nat) :
    List Slot × List Nat × Nat :=
  let distanceToCollision :=
    findDistanceToCollision slotCount currentGroup direction workingSlots
  if remainingMovement < distanceToCollision then
    let result := applyGroupMove slotCount currentGroup direction remainingMovement workingSlots
    (result.1, result.2, 0)
  else
    let moveDistance := distanceToCollision - 1
    let touched :=
      if 0 < moveDistance then
        applyGroupMove slotCount currentGroup direction moveDistance workingSlots
      else (workingSlots, currentGroup)
    let remaining₁ := remainingMovement - moveDistance
    if 0 < remaining₁ then
      let collisionIndices := collisionIndicesOf slotCount direction touched.1 touched.2
      let merged := mergeCollisionGroups slotCount touched.1 collisionIndices touched.2
      let result := applyGroupMove slotCount merged direction 1 touched.1
      (result.1, result.2, remaining₁ - 1)
    else (touched.1, touched.2, remaining₁)

/-- The `while (remainingMovement > 0)` chain-collision loop of `moveGroup`,
with structural fuel; every pass drops `remainingMovement` by at least one
(see the termination theorem below), so fuel equal to the initial `amount` is
never exhausted. -/
def moveLoopAux (slotCount : Nat) (direction : RotationDirection) :
    Nat → List Slot → List Nat → Nat → List Slot × List Nat
  | 0, workingSlots, currentGroup, _ => (workingSlots, currentGroup)
  | fuel + 1, workingSlots, currentGroup, remainingMovement =>
    if remainingMovement = 0 then (workingSlots, currentGroup)
    else
      let next := moveLoopStep slotCount direction workingSlots currentGroup remainingMovement
      moveLoopAux slotCount direction fuel next.1 next.2.1 next.2.2

/-- The slot/selection part of `moveGroup` in Board.tsx: full-ring rigid shift
when every slot is filled, chain-collision loop otherwise, then the selection
is re-derived from a surviving member.  Returns (new slots, new selection). -/
def moveGroupCore (slotCount : Nat) (group : List Nat) (direction : RotationDirection)
    (currentSlots : List Slot) (amount : Nat) : List Slot × List Nat :=
  if areAllSlotsFilled currentSlots then
    let result := applyGroupMove slotCount (List.range slotCount) direction amount currentSlots
    let newSelectedGroup := group.foldl
      (fun acc oldIndex => addSet acc (shiftIdx slotCount direction amount oldIndex)) []
    match newSelectedGroup.head? with
    | some anyIndex => (result.1, findConnectedGroup slotCount anyIndex result.1)
    | none => (result.1, newSelectedGroup)
  else
    let result := moveLoopAux slotCount direction amount currentSlots group amount
    match result.2.head? with
    | some anyIndex => (result.1, findConnectedGroup slotCount anyIndex result.1)
    | none => (result.1, result.2)

/-- The mutable counters touched by `triggerTileEffects`: the four React
state cells it updates, threaded sequentially (React applies queued
functional updates in order). -/
structure EffSt where
  playerResources : List (Nat × Int)
  playerVictoryPoints : List (Nat × Int)
  players : List Player
  currentPlayerIndex : Nat
  deriving DecidableEq, Repr

/-- The body of the `players.forEach` in `triggerTileEffects`, for one player.
`snapResources` is the render-time `playerResources` closure that the Victory
and Transfer precondition checks read; all writes go through the running
state `st` (the functional `setX` updates).  The Victory decrement reads
`current[player.id]` without `?? 0`; the embedding uses the default 0 the
code establishes at initialisation for every player key. -/
def effectStep (snapResources : List (Nat × Int)) (slotCount : Nat)
    (currentSlots : List Slot) (st : EffSt) (player : Player) : EffSt :=
  let slot := slotAtInt currentSlots player.slotIndex
  match slot.filled, slot.tile with
  | true, some tile =>
    match tile.typeId with
    | .resource =>
      let resourceGain := tile.value.getD 1
      let updated := rset st.playerResources player.id
        (rgetD st.playerResources player.id 0 + resourceGain)
      { st with playerResources := updated }
    | .victory =>
      let conversionRate := tile.value.getD 1
      let currentResources := rgetD snapResources player.id 0
      if conversionRate ≤ currentResources then
        let res := rset st.playerResources player.id
          (rgetD st.playerResources player.id 0 - conversionRate)
        let vp := rset st.playerVictoryPoints player.id
          (rgetD st.playerVictoryPoints player.id 0 + conversionRate)
        { st with playerResources := res, playerVictoryPoints := vp }
      else st
    | .movement =>
      let moveAmount := tile.value.getD 1
      let direction := tile.direction.getD .right
      let delta : Int := match direction with | .left => -moveAmount | .right => moveAmount
      { st with players := st.players.map (fun p =>
          if p.id = player.id then
            { p with slotIndex := (p.slotIndex + delta + (slotCount : Int)).tmod (slotCount : Int) }
          else p) }
    | .transfer =>
      match tile.ownerId with
      | some ownerId =>
        if ownerId ≠ player.id then
          let resourcesToTransfer := rgetD snapResources player.id 0
          if 0 < resourcesToTransfer then
            let res := rset (rset st.playerResources player.id 0) ownerId
              (rgetD st.playerResources ownerId 0 + resourcesToTransfer)
            { st with playerResources := res }
          else st
        else st
      | none => st
    | .skip =>
      match tile.ownerId with
      | some ownerId => { st with currentPlayerIndex := ownerId }
      | none => st
    | .block => st
    | .swap => st
    | .blank => st
  | _, _ => st

/-- `triggerTileEffects` in Board.tsx: iterate the render-time `players` list,
resolving the tile under each player against the post-move `currentSlots`. -/
def triggerTileEffects (playersSnap : List Player) (snapResources : List (Nat × Int))
    (slotCount : Nat) (currentSlots : List Slot) (init : EffSt) : EffSt :=
  playersSnap.foldl (effectStep snapResources slotCount currentSlots) init

/-- `SavedGameState` in Board.tsx (the snapshot schema); the three counter
maps are optional fields there. -/
structure SavedGameState where
  version : Int
  gamePhase : GamePhase
  playerCount : Nat
  slotCount : Nat
  slots : List Slot
  currentPlayerIndex : Nat
  playerResources : Option (List (Nat × Int)) := none
  playerVictoryPoints : Option (List (Nat × Int)) := none
  playerRotationPoints : Option (List (Nat × Int)) := none
  deriving DecidableEq, Repr

instance : Inhabited SavedGameState :=
  ⟨⟨0, .setup, 0, 0, [], 0, none, none, none⟩⟩

/-- The React state cells of the `Board` component (minus the display-only
ones: `rotationOffset`, `hoveredTile`). -/
structure GameState where
  gamePhase : GamePhase
  players : List Player
  slots : List Slot
  slotCount : Nat
  selectedTile : Option TileData
  selectedGroup : Option (List Nat)
  currentPlayerIndex : Nat
  hasRotatedThisTurn : Bool
  hasPlacedTileThisTurn : Bool
  playerResources : List (Nat × Int)
  playerVictoryPoints : List (Nat × Int)
  playerRotationPoints : List (Nat × Int)
  actionUndoStack : List SavedGameState
  actionRedoStack : List SavedGameState
  currentTurnStartState : Option SavedGameState
  turnUndoStack : List SavedGameState
  turnRedoStack : List SavedGameState
  deriving DecidableEq, Repr

/-- `getCurrentState` in Board.tsx. -/
def getCurrentState (st : GameState) : Option SavedGameState :=
  if st.gamePhase = .playing then
    some ⟨1, st.gamePhase, st.players.length, st.slotCount, st.slots,
      st.currentPlayerIndex, some st.playerResources, some st.playerVictoryPoints,
      some st.playerRotationPoints⟩
  else none

/-- `saveToActionUndoStack` in Board.tsx: push the current snapshot onto the
action undo stack and clear the redo stack. -/
def saveToActionUndoStack (st : GameState) : GameState :=
  match getCurrentState st with
  | some state =>
    { st with actionUndoStack := st.actionUndoStack ++ [state], actionRedoStack := [] }
  | none => st

/-- `handleSlotClick` in Board.tsx: with a palette tile selected, write it
into the clicked slot (no occupancy check), consume the selection, and mark
the per-turn placement flag. -/
def handleSlotClick (slotIndex : Nat) (st : GameState) : GameState :=
  match st.selectedTile with
  | none => st
  | some selectedTile =>
    let st₁ := saveToActionUndoStack st
    let newSlots := st₁.slots.set slotIndex
      { st₁.slots.getD slotIndex default with filled := true, tile := some selectedTile }
    { st₁ with slots := newSlots, selectedTile := none, hasPlacedTileThisTurn := true }

/-- `moveGroup` in Board.tsx at the state level: compute the new slots and
selection, then run `triggerTileEffects` against the render-time `players`
and `playerResources` closures. -/
def moveGroup (group : List Nat) (direction : RotationDirection) (amount : Nat)
    (st : GameState) : GameState :=
  let core := moveGroupCore st.slotCount group direction st.slots amount
  let eff := triggerTileEffects st.players st.playerResources st.slotCount core.1
    ⟨st.playerResources, st.playerVictoryPoints, st.players, st.currentPlayerIndex⟩
  { st with
    slots := core.1
    selectedGroup := some core.2
    playerResources := eff.playerResources
    playerVictoryPoints := eff.playerVictoryPoints
    players := eff.players
    currentPlayerIndex := eff.currentPlayerIndex }

/-- `handleMoveGroup` in Board.tsx: a null selection is the only rejected
case. -/
def handleMoveGroup (direction : RotationDirection) (amount : Nat)
    (st : GameState) : GameState :=
  match st.selectedGroup with
  | none => st
  | some selectedGroup => moveGroup selectedGroup direction amount st

/-- `handleRotate` in Board.tsx: snapshot for undo, then move the selected
group, or the whole ring when every slot is filled. -/
def handleRotate (direction : RotationDirection) (amount : Nat)
    (st : GameState) : GameState :=
  let st₁ := saveToActionUndoStack st
  match st₁.selectedGroup with
  | some _ => { handleMoveGroup direction amount st₁ with hasRotatedThisTurn := true }
  | none =>
    if areAllSlotsFilled st₁.slots then
      { moveGroup (List.range st₁.slotCount) direction amount st₁ with
        hasRotatedThisTurn := true }
    else st₁

/-- `handleLoadSave` in Board.tsx: restore the snapshot fields, rebuild the
player list from the two counts, reset the per-turn flags and the palette
selection.  (`savedState.currentPlayerIndex ?? 0` is the identity on the
required field; the `?? \x7b\x7d` fallbacks are `Option.getD`.) -/
def handleLoadSave (savedState : SavedGameState) (st : GameState) : GameState :=
  { st with
    slotCount := savedState.slotCount,
    players := createPlayers savedState.playerCount savedState.slotCount,
    slots := savedState.slots,
    currentPlayerIndex := savedState.currentPlayerIndex,
    hasRotatedThisTurn := false,
    hasPlacedTileThisTurn := false,
    selectedTile := none,
    playerResources := savedState.playerResources.getD [],
    playerVictoryPoints := savedState.playerVictoryPoints.getD [],
    playerRotationPoints := savedState.playerRotationPoints.getD [],
    gamePhase := .playing }

/-- `handleActionUndo` in Board.tsx. -/
def handleActionUndo (st : GameState) : GameState :=
  if st.actionUndoStack.isEmpty then st
  else
    let st₁ := match getCurrentState st with
      | some currentState =>
        { st with actionRedoStack := st.actionRedoStack ++ [currentState] }
      | none => st
    let previousState := st.actionUndoStack.getLastD default
    handleLoadSave previousState { st₁ with actionUndoStack := st₁.actionUndoStack.dropLast }

/-- `handleActionRedo` in Board.tsx. -/
def handleActionRedo (st : GameState) : GameState :=
  if st.actionRedoStack.isEmpty then st
  else
    let st₁ := match getCurrentState st with
      | some currentState =>
        { st with actionUndoStack := st.actionUndoStack ++ [currentState] }
      | none => st
    let nextState := st.actionRedoStack.getLastD default
    handleLoadSave nextState { st₁ with actionRedoStack := st₁.actionRedoStack.dropLast }

inductive TurnUndoMode where
  | restart | prev | disabled
  deriving DecidableEq, Repr

/-- The `turnUndoMode` derivation in Board.tsx. -/
def turnUndoMode (st : GameState) : TurnUndoMode :=
  if !st.actionUndoStack.isEmpty then .restart
  else if !st.turnUndoStack.isEmpty then .prev
  else .disabled

/-- `handleTurnUndo` in Board.tsx: restart the current turn, or step back one
turn; either way the action stacks are cleared after the snapshot load. -/
def handleTurnUndo (st : GameState) : GameState :=
  match turnUndoMode st, st.currentTurnStartState with
  | .restart, some turnStart =>
    let st₁ := match getCurrentState st with
      | some currentState => { st with turnRedoStack := st.turnRedoStack ++ [currentState] }
      | none => st
    { handleLoadSave turnStart st₁ with actionUndoStack := [], actionRedoStack := [] }
  | .prev, _ =>
    if st.turnUndoStack.isEmpty then st
    else
      let st₁ := match getCurrentState st with
        | some currentState => { st with turnRedoStack := st.turnRedoStack ++ [currentState] }
        | none => st
      let previousTurnState := st.turnUndoStack.getLastD default
      let st₂ := { st₁ with
        turnUndoStack := st₁.turnUndoStack.dropLast
        currentTurnStartState := some previousTurnState }
      { handleLoadSave previousTurnState st₂ with actionUndoStack := [], actionRedoStack := [] }
  | _, _ => st

/-- `handleTurnRedo` in Board.tsx. -/
def handleTurnRedo (st : GameState) : GameState :=
  if st.turnRedoStack.isEmpty then st
  else
    let st₁ := match st.currentTurnStartState with
      | some turnStart => { st with turnUndoStack := st.turnUndoStack ++ [turnStart] }
      | none => st
    let nextState := st.turnRedoStack.getLastD default
    let st₂ := { st₁ with
      turnRedoStack := st₁.turnRedoStack.dropLast
      currentTurnStartState := some nextState }
    { handleLoadSave nextState st₂ with actionUndoStack := [], actionRedoStack := [] }

/-- The shape of a parsed JSON value, as `JSON.parse` hands it to
`loadGameState`.  JS numbers (doubles, hence exact rationals) are modelled as
unreduced fractions `numerator / denominator` with a positive denominator;
ordinary integer snapshots use denominator 1. -/
inductive JVal where
  | null
  | jbool (b : Bool)
  | jnum (numerator : Int) (denominator : Nat)
  | jstr (s : String)
  | jarr (elements : List JVal)
  | jobj (fields : List (String × JVal))

/-- JS property access `v.k`: `undefined` (here `none`) on a missing key or a
non-object. -/
def jget (v : JVal) (k : String) : Option JVal :=
  match v with
  | .jobj fields => (fields.find? (fun f => f.1 = k)).map (fun f => f.2)
  | _ => none

/-- One slot entry of the `for (const slot of state.slots)` validation loop in
`loadGameState`: `typeof slot.id === 'number' && typeof slot.filled ===
'boolean'` (a null entry throws, which the catch turns into a rejection —
the same outcome as `false` here). -/
def slotEntryOk (slot : JVal) : Bool :=
  (match jget slot "id" with | some (.jnum _ _) => true | _ => false) &&
  (match jget slot "filled" with | some (.jbool _) => true | _ => false)

/-- The validation of `loadGameState` in Board.tsx: the `typeof` checks, the
`Array.isArray` check, the `slots.length !== state.slotCount` check and the
per-slot loop.  Accessing a property of `null` throws and is caught, giving
the same rejection as a failed check. -/
def loadChecks (state : JVal) : Bool :=
  (match jget state "version" with | some (.jnum _ _) => true | _ => false) &&
  (match jget state "gamePhase" with | some (.jstr _) => true | _ => false) &&
  (match jget state "playerCount" with | some (.jnum _ _) => true | _ => false) &&
  (match jget state "slotCount" with | some (.jnum _ _) => true | _ => false) &&
  (match jget state "slots", jget state "slotCount" with
   | some (.jarr slots), some (.jnum num den) =>
     (num = (slots.length : Int) * (den : Int) : Bool) && slots.all slotEntryOk
   | _, _ => false)

/-- `loadGameState` in Board.tsx: `none` when no save is stored or when the
validation rejects it (the code then clears the stored save). -/
def loadGameState (saved : Option JVal) : Option JVal :=
  match saved with
  | none => none
  | some state => if loadChecks state then some state else none

/-- The two outcomes of `getInitialState` in Board.tsx: the fixed fresh-game
record (`gamePhase` setup, no players, 16 empty slots, player index 0) or a
state rebuilt from the accepted snapshot. -/
inductive InitialState where
  | fresh
  | fromSave (state : JVal)

/-- Discriminator for the fresh-game outcome. -/
def InitialState.isFresh : InitialState → Bool
  | .fresh => true
  | .fromSave _ => false

/-- `getInitialState` in Board.tsx: rebuild from the stored snapshot only if
`loadGameState` accepts it and its `gamePhase` is `'playing'`; otherwise the
fresh-game defaults. -/
def getInitialState (saved : Option JVal) : InitialState :=
  match loadGameState saved with
  | some state =>
    match jget state "gamePhase" with
    | some (.jstr phase) => if phase = "playing" then .fromSave state else .fresh
    | _ => .fresh
  | none => .fresh

/-- Modelled from the spec: the rejection condition of §6 as the claim words
it — reject exactly when `slots.length != slotCount`, or some slot entry has
a non-boolean `filled` or a non-integer `id`, or `version` is missing or
non-numeric.  Written for comparison with `loadChecks`, which is the code's
condition. -/
def specRejectCond (state : JVal) : Bool :=
  !((match jget state "slots", jget state "slotCount" with
     | some (.jarr slots), some (.jnum num den) =>
       (num = (slots.length : Int) * (den : Int) : Bool) &&
       slots.all (fun slot =>
         (match jget slot "filled" with | some (.jbool _) => true | _ => false) &&
         (match jget slot "id" with
          | some (.jnum num den) => (num % (den : Int) = 0 : Bool)
          | _ => false))
     | _, _ => false) &&
    (match jget state "version" with | some (.jnum _ _) => true | _ => false))

/-! ### Observables and concrete scenarios used by the verification -/

/-- The occupied slot indices of a board, in index order. -/
def occupiedIndices (slotCount : Nat) (slots : List Slot) : List Nat :=
  (List.range slotCount).filter (fun i => (slots.getD i default).filled)

/-- The multiset of tile ids present on the ring. -/
def tileIds (slots : List Slot) : Multiset String :=
  ((slots.filterMap (fun s => s.tile)).map (fun t => t.id) : List String)

/-- The tile-id contribution of a single slot. -/
def slotIds (s : Slot) : Multiset String :=
  match s.tile with
  | some t => {t.id}
  | none => 0

/-- Number of occupied slots. -/
def occupiedCount (slots : List Slot) : Nat :=
  (slots.filter (fun s => s.filled)).length

/-- The two ring neighbours used by the BFS of `findConnectedGroup`. -/
def isNeighbor (slotCount : Nat) (x y : Nat) : Prop :=
  y = wrapIdx slotCount ((x : Int) - 1 + (slotCount : Int)) ∨
  y = wrapIdx slotCount ((x : Int) + 1)

/-- Invariant of the BFS loop state in `findConnectedGroup`: the group holds
only in-range filled slots without duplicates, every processed filled slot is
in the group, every filled neighbour of a group member is processed or
queued, and the group is processed. -/
def bfsInv (slotCount : Nat) (w : List Slot) (queue visited group : List Nat) : Prop :=
  (∀ x ∈ group, x < slotCount ∧ (w.getD x default).filled = true) ∧
  group.Nodup ∧
  (∀ v ∈ visited, (w.getD v default).filled = true → v ∈ group) ∧
  (∀ x ∈ group, ∀ y, isNeighbor slotCount x y → (w.getD y default).filled = true →
    y ∈ visited ∨ y ∈ queue) ∧
  (∀ x ∈ group, x ∈ visited)

/-- What the BFS returns: in-range filled slots, duplicate-free, closed under
filled neighbours, containing every filled processed-or-queued slot and the
whole incoming group. -/
def bfsConcl (slotCount : Nat) (w : List Slot) (queue visited group G : List Nat) : Prop :=
  (∀ x ∈ G, x < slotCount ∧ (w.getD x default).filled = true) ∧
  G.Nodup ∧
  (∀ x ∈ G, ∀ y, isNeighbor slotCount x y → (w.getD y default).filled = true → y ∈ G) ∧
  (∀ v, (v ∈ visited ∨ v ∈ queue) → (w.getD v default).filled = true → v ∈ G) ∧
  (∀ x ∈ group, x ∈ G)

/-- The running invariant of the chain-collision loop: the working ring keeps
its length, Empty slots hold no tile, Occupied slots hold one, and the current
group is a duplicate-free list of in-range Occupied indices. -/
def ringInv (N : Nat) (w : List Slot) (g : List Nat) : Prop :=
  w.length = N ∧
  (∀ j, j < N → (w.getD j default).filled = false → (w.getD j default).tile = none) ∧
  (∀ j, j < N → (w.getD j default).filled = true → (w.getD j default).tile ≠ none) ∧
  g.Nodup ∧
  (∀ x ∈ g, x < N ∧ (w.getD x default).filled = true)

/-- The §3 data-model invariant: an Empty slot holds no tile and an Occupied
slot holds exactly one. -/
def slotsWellFormed (slots : List Slot) : Bool :=
  slots.all (fun s => if s.filled then s.tile.isSome else s.tile.isNone)

/-- The three tiles of the spec's canonical chain-collision regression
scenario (§8): N=8, `T0` at 0, `T1` at 1, `T2` at 5, all other slots empty. -/
def chainT0 : TileData := { id := "T0", typeId := .blank }

def chainT1 : TileData := { id := "T1", typeId := .blank }

def chainT2 : TileData := { id := "T2", typeId := .blank }

def chainScenarioSlots : List Slot :=
  [⟨0, true, some chainT0⟩, ⟨1, true, some chainT1⟩, ⟨2, false, none⟩,
   ⟨3, false, none⟩, ⟨4, false, none⟩, ⟨5, true, some chainT2⟩,
   ⟨6, false, none⟩, ⟨7, false, none⟩]

/-- N=8 fully occupied ring with distinct tiles `T0..T7` in order (§8
full-ring scenario). -/
def fullRingSlots : List Slot :=
  [⟨0, true, some { id := "T0", typeId := .blank }⟩,
   ⟨1, true, some { id := "T1", typeId := .blank }⟩,
   ⟨2, true, some { id := "T2", typeId := .blank }⟩,
   ⟨3, true, some { id := "T3", typeId := .blank }⟩,
   ⟨4, true, some { id := "T4", typeId := .blank }⟩,
   ⟨5, true, some { id := "T5", typeId := .blank }⟩,
   ⟨6, true, some { id := "T6", typeId := .blank }⟩,
   ⟨7, true, some { id := "T7", typeId := .blank }⟩]

/-- Tile already sitting in the slot targeted by the place scenario. -/
def placeTileA : TileData := { id := "A", typeId := .blank }

/-- Palette tile selected in the place scenario. -/
def placeTileB : TileData := { id := "B", typeId := .resource, value := some 2 }

/-- A playing state whose slot 0 is already occupied while tile `B` is
selected in the palette. -/
def placeDemoState : GameState :=
  { gamePhase := .playing
    players := [⟨0, 0⟩]
    slots := [⟨0, true, some placeTileA⟩, ⟨1, false, none⟩]
    slotCount := 2
    selectedTile := some placeTileB
    selectedGroup := none
    currentPlayerIndex := 0
    hasRotatedThisTurn := false
    hasPlacedTileThisTurn := false
    playerResources := [(0, 0)]
    playerVictoryPoints := [(0, 0)]
    playerRotationPoints := [(0, 3)]
    actionUndoStack := []
    actionRedoStack := []
    currentTurnStartState := none
    turnUndoStack := []
    turnRedoStack := [] }

/-- Board with slot 0 Empty and slot 1 Occupied, used to call move with a
group that contains an Empty slot. -/
def invalidGroupSlots : List Slot :=
  [⟨0, false, none⟩, ⟨1, true, some chainT1⟩, ⟨2, false, none⟩, ⟨3, false, none⟩]

/-- A movement tile (1 step right) used by the undo/redo scenario. -/
def moveDemoTile : TileData :=
  { id := "M", typeId := .movement, value := some 1, direction := some .right }

/-- Start state of the undo/redo scenario: two players at slots 0 and 2 of a
4-slot ring, a rightward movement tile at slot 3, that tile's group
selected. -/
def undoDemoStart : GameState :=
  { gamePhase := .playing
    players := [⟨0, 0⟩, ⟨1, 2⟩]
    slots := [⟨0, false, none⟩, ⟨1, false, none⟩, ⟨2, false, none⟩,
      ⟨3, true, some moveDemoTile⟩]
    slotCount := 4
    selectedTile := none
    selectedGroup := some [3]
    currentPlayerIndex := 0
    hasRotatedThisTurn := false
    hasPlacedTileThisTurn := false
    playerResources := [(0, 0), (1, 0)]
    playerVictoryPoints := [(0, 0), (1, 0)]
    playerRotationPoints := [(0, 3), (1, 3)]
    actionUndoStack := []
    actionRedoStack := []
    currentTurnStartState := none
    turnUndoStack := []
    turnRedoStack := [] }

/-- One committed move action from `undoDemoStart`: the movement tile slides
from slot 3 onto slot 0, whose aligned player 0 is then moved to slot 1 by
the tile effect. -/
def undoDemoMoved : GameState := handleRotate .clockwise 1 undoDemoStart

/-- Transfer tile owned by player 1, for the effect-resolution scenario. -/
def effDemoTransferTile : TileData := { id := "X", typeId := .transfer, ownerId := some 1 }

/-- Victory tile converting at rate 5, for the effect-resolution scenario. -/
def effDemoVictoryTile : TileData := { id := "V", typeId := .victory, value := some 5 }

/-- Players 0 and 1 aligned with slots 0 and 1. -/
def effDemoPlayers : List Player := [⟨0, 0⟩, ⟨1, 1⟩]

/-- Player 0 stands on a transfer tile owned by player 1; player 1 stands on
a victory tile of rate 5. -/
def effDemoSlots : List Slot :=
  [⟨0, true, some effDemoTransferTile⟩, ⟨1, true, some effDemoVictoryTile⟩]

/-- Pass-start resources: player 0 has 5 resources, player 1 none. -/
def effDemoResources : List (Nat × Int) := [(0, 5), (1, 0)]

/-- Initial running state of the effect pass. -/
def effDemoInit : EffSt := ⟨effDemoResources, [(0, 0), (1, 0)], effDemoPlayers, 0⟩

/-- A small saved snapshot used to instantiate the restore theorems. -/
def demoSnap : SavedGameState :=
  { version := 1, gamePhase := .playing, playerCount := 2, slotCount := 4,
    slots := [⟨0, false, none⟩, ⟨1, false, none⟩, ⟨2, false, none⟩, ⟨3, false, none⟩],
    currentPlayerIndex := 1,
    playerResources := some [(0, 7), (1, 2)],
    playerVictoryPoints := some [(0, 1), (1, 0)],
    playerRotationPoints := some [(0, 3), (1, 3)] }

/-- A stored snapshot that is well-typed except that one slot id is the
non-integer number 3/2. -/
def badIdSave : JVal :=
  .jobj [("version", .jnum 1 1), ("gamePhase", .jstr "playing"),
    ("playerCount", .jnum 2 1), ("slotCount", .jnum 1 1),
    ("slots", .jarr [.jobj [("id", .jnum 3 2), ("filled", .jbool true)]])]

/-! ### Basic lemmas about the index arithmetic and the small containers -/

theorem wrapIdx_congr {n : Nat} {x y : Int} (h : x % (n : Int) = y % (n : Int)) :
    wrapIdx n x = wrapIdx n y := by
  unfold wrapIdx
  rw [h]

theorem wrapIdx_coe {n : Nat} (hn : 0 < n) (x : Int) :
    ((wrapIdx n x : Nat) : Int) = x % (n : Int) := by
  have hne : (n : Int) ≠ 0 := by exact_mod_cast Nat.pos_iff_ne_zero.mp hn
  unfold wrapIdx
  have h1 : ((x % (n : Int)) + (n : Int)) % (n : Int) = x % (n : Int) := by
    simp
  rw [h1, Int.toNat_of_nonneg (Int.emod_nonneg x hne)]

theorem wrapIdx_lt {n : Nat} (hn : 0 < n) (x : Int) : wrapIdx n x < n := by
  have hne : (n : Int) ≠ 0 := by exact_mod_cast Nat.pos_iff_ne_zero.mp hn
  have hpos : (0 : Int) < n := by exact_mod_cast hn
  have h := wrapIdx_coe hn x
  have : ((wrapIdx n x : Nat) : Int) < (n : Int) := by
    rw [h]; exact Int.emod_lt_of_pos x hpos
  exact_mod_cast this

theorem wrapIdx_add {n : Nat} (hn : 0 < n) (x y : Int) :
    wrapIdx n (((wrapIdx n x : Nat) : Int) + y) = wrapIdx n (x + y) := by
  apply wrapIdx_congr
  rw [wrapIdx_coe hn x, Int.add_emod (x % (n : Int)) y,
    Int.emod_emod_of_dvd x dvd_rfl, ← Int.add_emod]

theorem wrapIdx_self {n : Nat} (i : Nat) (h : i < n) : wrapIdx n (i : Int) = i := by
  have hn : 0 < n := Nat.lt_of_le_of_lt (Nat.zero_le i) h
  have hlt : (i : Int) < (n : Int) := by exact_mod_cast h
  have hmod : (i : Int) % (n : Int) = (i : Int) :=
    Int.emod_eq_of_lt (by exact_mod_cast Nat.zero_le i) hlt
  have := wrapIdx_coe hn (i : Int)
  rw [hmod] at this
  exact_mod_cast this

theorem wrapIdx_add_period {n : Nat} (x : Int) :
    wrapIdx n (x + (n : Int)) = wrapIdx n x := by
  apply wrapIdx_congr
  simp

theorem shiftIdx_lt {n : Nat} (hn : 0 < n) (dir : RotationDirection) (k i : Nat) :
    shiftIdx n dir k i < n := wrapIdx_lt hn _

theorem shiftIdx_left_inverse {n : Nat} (hn : 0 < n) (dir : RotationDirection)
    (k : Nat) {a : Nat} (ha : a < n) :
    wrapIdx n ((shiftIdx n dir k a : Nat) - dirStep dir * (k : Int)) = a := by
  unfold shiftIdx
  have h1 : wrapIdx n (((wrapIdx n ((a : Int) + dirStep dir * k) : Nat) : Int) +
      (-(dirStep dir * k))) = wrapIdx n ((a : Int) + dirStep dir * k + (-(dirStep dir * k))) :=
    wrapIdx_add hn _ _
  have h2 : (a : Int) + dirStep dir * k + (-(dirStep dir * k)) = (a : Int) := by ring
  rw [h2] at h1
  rw [wrapIdx_self a ha] at h1
  have h3 : ((wrapIdx n ((a : Int) + dirStep dir * k) : Nat) : Int) - dirStep dir * k =
      ((wrapIdx n ((a : Int) + dirStep dir * k) : Nat) : Int) + (-(dirStep dir * k)) := by ring
  rw [h3]
  exact h1

theorem shiftIdx_inj {n : Nat} (hn : 0 < n) (dir : RotationDirection) (k : Nat)
    {a b : Nat} (ha : a < n) (hb : b < n)
    (h : shiftIdx n dir k a = shiftIdx n dir k b) : a = b := by
  have h1 := shiftIdx_left_inverse hn dir k ha
  have h2 := shiftIdx_left_inverse hn dir k hb
  rw [h] at h1
  rw [← h1, h2]

theorem shiftIdx_surjective {n : Nat} (hn : 0 < n) (dir : RotationDirection) (k : Nat)
    {j : Nat} (hj : j < n) :
    shiftIdx n dir k (wrapIdx n ((j : Int) - dirStep dir * k)) = j := by
  unfold shiftIdx
  have h1 : wrapIdx n (((wrapIdx n ((j : Int) - dirStep dir * k) : Nat) : Int) +
      dirStep dir * k) = wrapIdx n ((j : Int) - dirStep dir * k + dirStep dir * k) :=
    wrapIdx_add hn _ _
  have h2 : (j : Int) - dirStep dir * k + dirStep dir * k = (j : Int) := by ring
  rw [h2, wrapIdx_self j hj] at h1
  exact h1

theorem mem_addSet {s : List Nat} {x y : Nat} : x ∈ addSet s y ↔ x ∈ s ∨ x = y := by
  unfold addSet
  by_cases h : y ∈ s
  · simp only [if_pos h]
    constructor
    · exact Or.inl
    · rintro (hx | rfl)
      · exact hx
      · exact h
  · simp [if_neg h, List.mem_append]

theorem addSet_nodup {s : List Nat} {y : Nat} (h : s.Nodup) : (addSet s y).Nodup := by
  unfold addSet
  by_cases hy : y ∈ s
  · simpa [if_pos hy]
  · simp only [if_neg hy, List.nodup_append]
    refine ⟨h, List.nodup_singleton y, fun a ha hmem => ?_⟩
    rw [List.mem_singleton] at hmem
    exact hy (hmem ▸ ha)

theorem subset_addSet {s : List Nat} {y : Nat} : s ⊆ addSet s y := by
  intro x hx
  exact mem_addSet.mpr (Or.inl hx)

theorem mem_foldl_addSet {f : Nat → Nat} {x : Nat} :
    ∀ (l : List Nat) (init : List Nat),
      (x ∈ l.foldl (fun acc o => addSet acc (f o)) init ↔ x ∈ init ∨ ∃ o ∈ l, f o = x)
  | [], init => by simp
  | o :: l, init => by
    rw [List.foldl_cons, mem_foldl_addSet l (addSet init (f o))]
    constructor
    · rintro (h | h)
      · rcases mem_addSet.mp h with h | rfl
        · exact Or.inl h
        · exact Or.inr ⟨o, by simp⟩
      · rcases h with ⟨o', ho', rfl⟩
        exact Or.inr ⟨o', by simp [ho']⟩
    · rintro (h | ⟨o', ho', rfl⟩)
      · exact Or.inl (mem_addSet.mpr (Or.inl h))
      · rcases List.mem_cons.mp ho' with rfl | ho'
        · exact Or.inl (mem_addSet.mpr (Or.inr rfl))
        · exact Or.inr ⟨o', ho', rfl⟩

theorem nodup_foldl_addSet {f : Nat → Nat} :
    ∀ (l : List Nat) (init : List Nat), init.Nodup →
      (l.foldl (fun acc o => addSet acc (f o)) init).Nodup
  | [], _, h => h
  | o :: l, init, h =>
    nodup_foldl_addSet l (addSet init (f o)) (addSet_nodup h)

theorem mem_foldl_addSet_guard {p : Nat → Prop} [DecidablePred p] {f : Nat → Nat} {x : Nat} :
    ∀ (l : List Nat) (init : List Nat),
      (x ∈ l.foldl (fun acc e => if p e then addSet acc (f e) else acc) init ↔
        x ∈ init ∨ ∃ e ∈ l, p e ∧ f e = x)
  | [], init => by simp
  | e :: l, init => by
    rw [List.foldl_cons, mem_foldl_addSet_guard l _]
    by_cases hp : p e
    · rw [if_pos hp]
      constructor
      · rintro (h | h)
        · rcases mem_addSet.mp h with h | rfl
          · exact Or.inl h
          · exact Or.inr ⟨e, by simp, hp, rfl⟩
        · rcases h with ⟨e', he', hpe', rfl⟩
          exact Or.inr ⟨e', by simp [he'], hpe', rfl⟩
      · rintro (h | ⟨e', he', hpe', rfl⟩)
        · exact Or.inl (mem_addSet.mpr (Or.inl h))
        · rcases List.mem_cons.mp he' with rfl | he'
          · exact Or.inl (mem_addSet.mpr (Or.inr rfl))
          · exact Or.inr ⟨e', he', hpe', rfl⟩
    · rw [if_neg hp]
      constructor
      · rintro (h | ⟨e', he', hpe', rfl⟩)
        · exact Or.inl h
        · exact Or.inr ⟨e', by simp [he'], hpe', rfl⟩
      · rintro (h | ⟨e', he', hpe', rfl⟩)
        · exact Or.inl h
        · rcases List.mem_cons.mp he' with rfl | he'
          · exact absurd hpe' hp
          · exact Or.inr ⟨e', he', hpe', rfl⟩

theorem nodup_foldl_addSet_guard {p : Nat → Prop} [DecidablePred p] {f : Nat → Nat} :
    ∀ (l : List Nat) (init : List Nat), init.Nodup →
      (l.foldl (fun acc e => if p e then addSet acc (f e) else acc) init).Nodup
  | [], _, h => h
  | e :: l, init, h => by
    rw [List.foldl_cons]
    by_cases hp : p e
    · rw [if_pos hp]
      exact nodup_foldl_addSet_guard l _ (addSet_nodup h)
    · rw [if_neg hp]
      exact nodup_foldl_addSet_guard l _ h

theorem mem_foldl_mergeGroups {F : Nat → List Nat} {x : Nat} :
    ∀ (l : List Nat) (init : List Nat),
      (x ∈ l.foldl (fun g c => (F c).foldl addSet g) init ↔
        x ∈ init ∨ ∃ c ∈ l, x ∈ F c)
  | [], init => by simp
  | c :: l, init => by
    rw [List.foldl_cons, mem_foldl_mergeGroups l _]
    have hinner : x ∈ (F c).foldl addSet init ↔ x ∈ init ∨ x ∈ F c := by
      have := @mem_foldl_addSet (fun o => o) x (F c) init
      simpa using this
    rw [hinner]
    constructor
    · rintro ((h | h) | ⟨c', hc', hx⟩)
      · exact Or.inl h
      · exact Or.inr ⟨c, by simp, h⟩
      · exact Or.inr ⟨c', by simp [hc'], hx⟩
    · rintro (h | ⟨c', hc', hx⟩)
      · exact Or.inl (Or.inl h)
      · rcases List.mem_cons.mp hc' with rfl | hc'
        · exact Or.inl (Or.inr hx)
        · exact Or.inr ⟨c', hc', hx⟩

theorem nodup_foldl_mergeGroups {F : Nat → List Nat} :
    ∀ (l : List Nat) (init : List Nat), init.Nodup →
      (l.foldl (fun g c => (F c).foldl addSet g) init).Nodup
  | [], _, h => h
  | c :: l, init, h => by
    rw [List.foldl_cons]
    refine nodup_foldl_mergeGroups l _ ?_
    have : ∀ (m : List Nat) (s : List Nat), s.Nodup → (m.foldl addSet s).Nodup := by
      intro m
      induction m with
      | nil => exact fun s hs => hs
      | cons a m ih => exact fun s hs => ih _ (addSet_nodup hs)
    exact this (F c) init h

theorem rgetD_nil (k : Nat) (d : Int) : rgetD [] k d = d := rfl

theorem rgetD_cons (e : Nat × Int) (t : List (Nat × Int)) (k : Nat) (d : Int) :
    rgetD (e :: t) k d = if e.1 = k then e.2 else rgetD t k d := by
  simp only [rgetD, List.find?_cons]
  by_cases h : e.1 = k
  · simp [h]
  · simp [h]

theorem map_rset_eq_self {t : List (Nat × Int)} {k : Nat} (v : Int)
    (h : ∀ a ∈ t, ¬a.1 = k) :
    t.map (fun e => if e.1 = k then (k, v) else e) = t := by
  induction t with
  | nil => rfl
  | cons a t ih =>
    rw [List.map_cons, if_neg (h a (by simp)), ih]
    intro b hb
    exact h b (by simp [hb])

theorem rgetD_rset_self (k : Nat) (v d : Int) :
    ∀ m : List (Nat × Int), rgetD (rset m k v) k d = v := by
  intro m
  induction m with
  | nil => simp [rset, rgetD_cons]
  | cons e t ih =>
    by_cases hany : ((e :: t).any fun e => e.1 = k) = true
    · simp only [rset, hany, if_pos, List.map_cons]
      by_cases he : e.1 = k
      · rw [if_pos he, rgetD_cons]
        simp
      · rw [if_neg he, rgetD_cons, if_neg he]
        have htany : (t.any fun e => e.1 = k) = true := by
          rcases List.any_eq_true.mp hany with ⟨a, ha, hak⟩
          rcases List.mem_cons.mp ha with rfl | ha
          · exact absurd (by simpa using hak) he
          · exact List.any_eq_true.mpr ⟨a, ha, hak⟩
        have := ih
        rwa [rset, if_pos htany] at this
    · have he : ¬e.1 = k := fun hk =>
        hany (List.any_eq_true.mpr ⟨e, by simp, by simpa using hk⟩)
      have htany : ¬(t.any fun e => e.1 = k) = true := fun hk => by
        rcases List.any_eq_true.mp hk with ⟨a, ha, hak⟩
        exact hany (List.any_eq_true.mpr ⟨a, by simp [ha], hak⟩)
      rw [rset, if_neg hany, List.cons_append, rgetD_cons, if_neg he]
      have := ih
      rwa [rset, if_neg htany] at this

theorem rgetD_rset_ne {k k' : Nat} (v d : Int) (h : k' ≠ k) :
    ∀ m : List (Nat × Int), rgetD (rset m k v) k' d = rgetD m k' d := by
  intro m
  induction m with
  | nil =>
    rw [rset, if_neg (by simp), List.nil_append, rgetD_cons,
      if_neg (fun hk => h hk.symm)]
  | cons e t ih =>
    by_cases hany : ((e :: t).any fun e => e.1 = k) = true
    · simp only [rset, hany, if_pos, List.map_cons]
      have hsub : rgetD (t.map (fun e => if e.1 = k then (k, v) else e)) k' d =
          rgetD t k' d := by
        by_cases htany : (t.any fun e => e.1 = k) = true
        · have := ih
          rwa [rset, if_pos htany] at this
        · rw [map_rset_eq_self v]
          intro a ha hak
          exact htany (List.any_eq_true.mpr ⟨a, ha, by simpa using hak⟩)
      by_cases he : e.1 = k
      · rw [if_pos he, rgetD_cons, rgetD_cons, if_neg (fun hk => h hk.symm),
          if_neg (by rw [he]; exact fun hk => h hk.symm)]
        exact hsub
      · rw [if_neg he, rgetD_cons, rgetD_cons]
        by_cases he' : e.1 = k'
        · rw [if_pos he', if_pos he']
        · rw [if_neg he', if_neg he']
          exact hsub
    · have he : ¬e.1 = k := fun hk =>
        hany (List.any_eq_true.mpr ⟨e, by simp, by simpa using hk⟩)
      have htany : ¬(t.any fun e => e.1 = k) = true := fun hk => by
        rcases List.any_eq_true.mp hk with ⟨a, ha, hak⟩
        exact hany (List.any_eq_true.mpr ⟨a, by simp [ha], hak⟩)
      rw [rset, if_neg hany, List.cons_append, rgetD_cons, rgetD_cons]
      by_cases he' : e.1 = k'
      · rw [if_pos he', if_pos he']
      · rw [if_neg he', if_neg he']
        have := ih
        rwa [rset, if_neg htany] at this

theorem foldl_min_le_init {f : Nat → Option Nat} :
    ∀ (l : List Nat) (init : Nat),
      (l.foldl (fun m e => match f e with | some v => min m v | none => m) init) ≤ init := by
  intro l
  induction l with
  | nil => intro init; exact Nat.le_refl init
  | cons e l ih =>
    intro init
    rw [List.foldl_cons]
    cases hf : f e with
    | none => exact ih init
    | some v => exact Nat.le_trans (ih (min init v)) (Nat.min_le_left init v)

theorem foldl_min_le {f : Nat → Option Nat} :
    ∀ (l : List Nat) (init : Nat) {e : Nat} {v : Nat}, e ∈ l → f e = some v →
      (l.foldl (fun m e => match f e with | some v => min m v | none => m) init) ≤ v := by
  intro l
  induction l with
  | nil => intro _ _ _ h; exact absurd h (List.not_mem_nil _)
  | cons a l ih =>
    intro init e v he hv
    rw [List.foldl_cons]
    rcases List.mem_cons.mp he with rfl | he
    · rw [hv]
      exact Nat.le_trans (foldl_min_le_init l (min init v)) (Nat.min_le_right init v)
    · cases hf : f a with
      | none => exact ih _ he hv
      | some w => exact ih _ he hv

theorem le_foldl_min {f : Nat → Option Nat} {c : Nat} :
    ∀ (l : List Nat) (init : Nat), c ≤ init → (∀ e ∈ l, ∀ v, f e = some v → c ≤ v) →
      c ≤ l.foldl (fun m e => match f e with | some v => min m v | none => m) init := by
  intro l
  induction l with
  | nil => intro init h _; exact h
  | cons a l ih =>
    intro init hinit hall
    rw [List.foldl_cons]
    cases hf : f a with
    | none => exact ih init hinit (fun e he v hv => hall e (by simp [he]) v hv)
    | some v =>
      exact ih (min init v)
        (Nat.le_min.mpr ⟨hinit, hall a (by simp) v hf⟩)
        (fun e he w hw => hall e (by simp [he]) w hw)

theorem scanCollision_spec {n : Nat} {slots : List Slot} {g : List Nat}
    {dir : RotationDirection} {e v : Nat}
    (h : scanCollision n slots g dir e = some v) :
    1 ≤ v ∧ v ≤ n - 1 ∧
      (slots.getD (wrapIdx n ((e : Int) + dirStep dir * (v : Int))) default).filled = true ∧
      wrapIdx n ((e : Int) + dirStep dir * (v : Int)) ∉ g := by
  have hmem := List.mem_of_find?_eq_some h
  have hp := List.find?_some h
  rw [List.mem_range'] at hmem
  rcases hmem with ⟨i, hi, rfl⟩
  simp only [decide_eq_true_eq] at hp
  exact ⟨by omega, by omega, hp.1, hp.2⟩

theorem findDistanceToCollision_le (n : Nat) (g : List Nat) (dir : RotationDirection)
    (slots : List Slot) : findDistanceToCollision n g dir slots ≤ n :=
  foldl_min_le_init _ n

theorem findDistanceToCollision_pos {n : Nat} (hn : 0 < n) (g : List Nat)
    (dir : RotationDirection) (slots : List Slot) :
    0 < findDistanceToCollision n g dir slots := by
  refine le_foldl_min _ n hn ?_
  intro e _ v hv
  exact (scanCollision_spec hv).1

theorem findDistanceToCollision_le_scan {n : Nat} {g : List Nat}
    {dir : RotationDirection} {slots : List Slot} {e v : Nat}
    (he : e ∈ getLeadingEdge n g dir) (hv : scanCollision n slots g dir e = some v) :
    findDistanceToCollision n g dir slots ≤ v :=
  foldl_min_le _ n he hv

theorem find?_range'_first {p : Nat → Bool} :
    ∀ (s n : Nat) {t : Nat}, t ∈ List.range' s n → p t = true →
      ∃ t₀, (List.range' s n).find? p = some t₀ ∧ t₀ ≤ t ∧ p t₀ = true := by
  intro s n
  induction n generalizing s with
  | zero => intro t ht; simp at ht
  | succ n ih =>
    intro t ht hp
    rw [List.range'_succ, List.find?_cons]
    cases hs : p s with
    | true =>
      have hst : s ≤ t := by
        rw [List.mem_range'] at ht
        omega
      exact ⟨s, rfl, hst, hs⟩
    | false =>
      have hts : t ≠ s := fun h => by rw [h, hs] at hp; exact Bool.false_ne_true hp
      have ht' : t ∈ List.range' (s + 1) n := by
        rw [List.mem_range'] at ht ⊢
        rcases ht with ⟨i, hi, rfl⟩
        exact ⟨i - 1, by omega, by omega⟩
      exact ih (s + 1) ht' hp

/-! ### Characterisation of `applyGroupMove` -/

theorem clearOldPositions_cons (o : Nat) (l : List Nat) (s : List Slot) :
    clearOldPositions (o :: l) s =
      clearOldPositions l (s.set o ⟨(s.getD o default).id, false, none⟩) := rfl

theorem clearOldPositions_length (l : List Nat) (s : List Slot) :
    (clearOldPositions l s).length = s.length := by
  induction l generalizing s with
  | nil => rfl
  | cons o l ih =>
    rw [clearOldPositions_cons, ih, List.length_set]

theorem getD_set_self {s : List Slot} {o : Nat} (v : Slot) (h : o < s.length) :
    (s.set o v).getD o default = v := by
  rw [List.getD_eq_getElem?_getD, List.getElem?_set, if_pos rfl, if_pos h]
  rfl

theorem getD_set_ne {s : List Slot} {o j : Nat} (v : Slot) (h : o ≠ j) :
    (s.set o v).getD j default = s.getD j default := by
  rw [List.getD_eq_getElem?_getD, List.getElem?_set, if_neg h, ← List.getD_eq_getElem?_getD]

theorem getD_clearOldPositions (l : List Nat) (s : List Slot) (j : Nat)
    (hj : j < s.length) :
    (clearOldPositions l s).getD j default =
      if j ∈ l then ⟨(s.getD j default).id, false, none⟩ else s.getD j default := by
  induction l generalizing s with
  | nil => simp [clearOldPositions]
  | cons o l ih =>
    rw [clearOldPositions_cons]
    have hlen : j < (s.set o ⟨(s.getD o default).id, false, none⟩).length := by
      rw [List.length_set]; exact hj
    rw [ih _ hlen]
    by_cases hoj : o = j
    · rw [hoj, getD_set_self _ hj]
      by_cases hjl : j ∈ l
      · rw [if_pos hjl, if_pos (by simp [hjl])]
      · rw [if_neg hjl, if_pos (by simp [hoj])]
    · rw [getD_set_ne _ hoj]
      by_cases hjl : j ∈ l
      · rw [if_pos hjl, if_pos (by simp [hjl])]
      · rw [if_neg hjl, if_neg (by
          simp only [List.mem_cons]
          rintro (rfl | h)
          · exact hoj rfl
          · exact hjl h)]

theorem writeNewPositions_cons (n : Nat) (dir : RotationDirection) (k : Nat)
    (w : List Slot) (a : Nat) (l : List Nat) (init : List Slot) :
    writeNewPositions n dir k w (a :: l) init =
      writeNewPositions n dir k w l (init.set (shiftIdx n dir k a)
        ⟨(init.getD (shiftIdx n dir k a) default).id, true, (w.getD a default).tile⟩) := rfl

theorem writeNewPositions_length (n : Nat) (dir : RotationDirection) (k : Nat)
    (w : List Slot) (l : List Nat) (init : List Slot) :
    (writeNewPositions n dir k w l init).length = init.length := by
  induction l generalizing init with
  | nil => rfl
  | cons o l ih =>
    rw [writeNewPositions_cons, ih, List.length_set]

theorem getD_writeNewPositions_not_mem (n : Nat) (dir : RotationDirection) (k : Nat)
    (w : List Slot) (l : List Nat) (init : List Slot) (j : Nat)
    (hj : ∀ o ∈ l, shiftIdx n dir k o ≠ j) :
    (writeNewPositions n dir k w l init).getD j default = init.getD j default := by
  induction l generalizing init with
  | nil => rfl
  | cons o l ih =>
    rw [writeNewPositions_cons, ih _ (fun o' ho' => hj o' (by simp [ho'])),
      getD_set_ne _ (hj o (by simp))]

theorem getD_writeNewPositions_mem (n : Nat) (dir : RotationDirection) (k : Nat)
    (w : List Slot) (l : List Nat) (init : List Slot) (o : Nat)
    (ho : o ∈ l) (hinj : ∀ o' ∈ l, shiftIdx n dir k o' = shiftIdx n dir k o → o' = o)
    (hlt : shiftIdx n dir k o < init.length) :
    (writeNewPositions n dir k w l init).getD (shiftIdx n dir k o) default =
      ⟨(init.getD (shiftIdx n dir k o) default).id, true, (w.getD o default).tile⟩ := by
  induction l generalizing init with
  | nil => exact absurd ho (List.not_mem_nil o)
  | cons a l ih =>
    rw [writeNewPositions_cons]
    set init' := init.set (shiftIdx n dir k a)
      ⟨(init.getD (shiftIdx n dir k a) default).id, true, (w.getD a default).tile⟩ with hinit'
    have hlen' : shiftIdx n dir k o < init'.length := by
      rw [hinit', List.length_set]; exact hlt
    have hid : (init'.getD (shiftIdx n dir k o) default).id =
        (init.getD (shiftIdx n dir k o) default).id := by
      by_cases hao : shiftIdx n dir k a = shiftIdx n dir k o
      · rw [hinit', hao, getD_set_self _ (hao ▸ hlt)]
      · rw [hinit', getD_set_ne _ hao]
    by_cases hol : o ∈ l
    · have hinj' : ∀ o' ∈ l, shiftIdx n dir k o' = shiftIdx n dir k o → o' = o :=
        fun o' ho' => hinj o' (by simp [ho'])
      rw [ih init' hol hinj' hlen', hid]
    · have hoa : o = a := by
        rcases List.mem_cons.mp ho with h | h
        · exact h
        · exact absurd h hol
      have hnot : ∀ o' ∈ l, shiftIdx n dir k o' ≠ shiftIdx n dir k o := by
        intro o' ho' heq
        exact hol ((hinj o' (by simp [ho']) heq) ▸ ho')
      rw [getD_writeNewPositions_not_mem n dir k w l init' _ hnot]
      rw [hinit', ← hoa, getD_set_self _ hlt]

theorem applyGroupMove_slots_length (n : Nat) (g : List Nat) (dir : RotationDirection)
    (k : Nat) (w : List Slot) :
    (applyGroupMove n g dir k w).1.length = w.length := by
  unfold applyGroupMove
  rw [writeNewPositions_length, clearOldPositions_length]

theorem applyGroupMove_getD_mem {n : Nat} (hn : 0 < n) {g : List Nat}
    {dir : RotationDirection} {k : Nat} {w : List Slot} (hlen : w.length = n)
    {o : Nat} (ho : o ∈ g) (hrange : ∀ x ∈ g, x < n) :
    (applyGroupMove n g dir k w).1.getD (shiftIdx n dir k o) default =
      ⟨(w.getD (shiftIdx n dir k o) default).id, true, (w.getD o default).tile⟩ := by
  unfold applyGroupMove
  have hlt : shiftIdx n dir k o < (clearOldPositions g w).length := by
    rw [clearOldPositions_length, hlen]
    exact shiftIdx_lt hn dir k o
  have hinj : ∀ o' ∈ g, shiftIdx n dir k o' = shiftIdx n dir k o → o' = o :=
    fun o' ho' h => shiftIdx_inj hn dir k (hrange o' ho') (hrange o ho) h
  rw [getD_writeNewPositions_mem n dir k w g (clearOldPositions g w) o ho hinj hlt]
  have hjlt : shiftIdx n dir k o < w.length := by rw [hlen]; exact shiftIdx_lt hn dir k o
  rw [getD_clearOldPositions g w _ hjlt]
  by_cases hmem : shiftIdx n dir k o ∈ g
  · rw [if_pos hmem]
  · rw [if_neg hmem]

theorem applyGroupMove_getD_cleared {n : Nat} {g : List Nat}
    {dir : RotationDirection} {k : Nat} {w : List Slot} {j : Nat}
    (hj1 : j ∈ g) (hj2 : ∀ o ∈ g, shiftIdx n dir k o ≠ j) (hjlt : j < w.length) :
    (applyGroupMove n g dir k w).1.getD j default = ⟨(w.getD j default).id, false, none⟩ := by
  unfold applyGroupMove
  rw [getD_writeNewPositions_not_mem n dir k w g _ j hj2]
  rw [getD_clearOldPositions g w j hjlt, if_pos hj1]

theorem applyGroupMove_getD_other {n : Nat} {g : List Nat}
    {dir : RotationDirection} {k : Nat} {w : List Slot} {j : Nat}
    (hj1 : j ∉ g) (hj2 : ∀ o ∈ g, shiftIdx n dir k o ≠ j) (hjlt : j < w.length) :
    (applyGroupMove n g dir k w).1.getD j default = w.getD j default := by
  unfold applyGroupMove
  rw [getD_writeNewPositions_not_mem n dir k w g _ j hj2]
  rw [getD_clearOldPositions g w j hjlt, if_neg hj1]

theorem mem_applyGroupMove_group {n : Nat} {g : List Nat} {dir : RotationDirection}
    {k : Nat} {w : List Slot} {x : Nat} :
    x ∈ (applyGroupMove n g dir k w).2 ↔ ∃ o ∈ g, shiftIdx n dir k o = x := by
  unfold applyGroupMove shiftedGroup
  rw [mem_foldl_addSet g []]
  simp

theorem applyGroupMove_group_nodup (n : Nat) (g : List Nat) (dir : RotationDirection)
    (k : Nat) (w : List Slot) : (applyGroupMove n g dir k w).2.Nodup := by
  unfold applyGroupMove shiftedGroup
  exact nodup_foldl_addSet g [] List.nodup_nil

/-! ### Claim C1: the canonical chain-collision scenario -/

/-- C1, counterexample: in the canonical scenario (N=8, `T0`@0, `T1`@1,
`T2`@5, group `[0,1]`, Right/clockwise by 4) the final occupied set is not
the claimed `[3,4,5]`: slot 3 ends Empty. -/
theorem chainScenario_not_claimed_set :
    occupiedIndices 8 (moveGroupCore 8 [0, 1] .clockwise chainScenarioSlots 4).1 ≠
      [3, 4, 5] ∧
    ((moveGroupCore 8 [0, 1] .clockwise chainScenarioSlots 4).1.getD 3 default).filled =
      false := by
  decide

/-- C1, amended: the canonical scenario terminates with occupied set
`[4,5,6]`, holding `T0`, `T1`, `T2` in that circular order (the group closes
the 3-slot gap, merges with `T2`, and the merged body travels the one
remaining step). -/
theorem chainScenario_result :
    occupiedIndices 8 (moveGroupCore 8 [0, 1] .clockwise chainScenarioSlots 4).1 =
      [4, 5, 6] ∧
    ((moveGroupCore 8 [0, 1] .clockwise chainScenarioSlots 4).1.getD 4 default).tile =
      some chainT0 ∧
    ((moveGroupCore 8 [0, 1] .clockwise chainScenarioSlots 4).1.getD 5 default).tile =
      some chainT1 ∧
    ((moveGroupCore 8 [0, 1] .clockwise chainScenarioSlots 4).1.getD 6 default).tile =
      some chainT2 := by
  decide

/-! ### Claim C4: placing into an occupied slot -/

/-- C4, counterexample: with tile `B` selected, clicking the occupied slot 0
does not fail and does mutate state — the stored tile `A` is overwritten by
`B`. -/
theorem place_occupied_overwrites :
    (handleSlotClick 0 placeDemoState).slots ≠ placeDemoState.slots ∧
    ((handleSlotClick 0 placeDemoState).slots.getD 0 default).tile = some placeTileB ∧
    (placeDemoState.slots.getD 0 default).filled = true := by
  decide

/-- C4, amended: `handleSlotClick` performs no occupancy check: a place
targeting an Occupied slot is accepted and replaces that slot's tile with
the selected one (destroying the previous tile); every other slot and all
player counters are untouched, and there is no `SlotOccupied` outcome
anywhere in the code. -/
theorem handleSlotClick_occupied_replaces (st : GameState) (idx : Nat) (t : TileData)
    (hsel : st.selectedTile = some t) (hidx : idx < st.slots.length)
    (_hocc : (st.slots.getD idx default).filled = true) :
    (handleSlotClick idx st).slots.getD idx default =
      ⟨(st.slots.getD idx default).id, true, some t⟩ ∧
    (∀ j, j ≠ idx → (handleSlotClick idx st).slots.getD j default =
      st.slots.getD j default) ∧
    (handleSlotClick idx st).playerResources = st.playerResources ∧
    (handleSlotClick idx st).playerVictoryPoints = st.playerVictoryPoints ∧
    (handleSlotClick idx st).playerRotationPoints = st.playerRotationPoints ∧
    (handleSlotClick idx st).players = st.players := by
  have hslots : (handleSlotClick idx st).slots =
      st.slots.set idx ⟨(st.slots.getD idx default).id, true, some t⟩ := by
    unfold handleSlotClick
    rw [hsel]
    unfold saveToActionUndoStack
    cases getCurrentState st <;> rfl
  have hrest : (handleSlotClick idx st).playerResources = st.playerResources ∧
      (handleSlotClick idx st).playerVictoryPoints = st.playerVictoryPoints ∧
      (handleSlotClick idx st).playerRotationPoints = st.playerRotationPoints ∧
      (handleSlotClick idx st).players = st.players := by
    unfold handleSlotClick
    rw [hsel]
    unfold saveToActionUndoStack
    cases getCurrentState st <;> exact ⟨rfl, rfl, rfl, rfl⟩
  refine ⟨?_, ?_, hrest⟩
  · rw [hslots, getD_set_self _ hidx]
  · intro j hj
    rw [hslots, getD_set_ne _ (fun h => hj h.symm)]

/-- C4 witness: the amended statement at the concrete occupied-slot
scenario. -/
theorem handleSlotClick_occupied_replaces_witness :
    (handleSlotClick 0 placeDemoState).slots.getD 0 default =
      ⟨(placeDemoState.slots.getD 0 default).id, true, some placeTileB⟩ ∧
    (handleSlotClick 0 placeDemoState).players = placeDemoState.players :=
  ⟨(handleSlotClick_occupied_replaces placeDemoState 0 placeTileB rfl (by decide)
      (by decide)).1,
   (handleSlotClick_occupied_replaces placeDemoState 0 placeTileB rfl (by decide)
      (by decide)).2.2.2.2.2⟩

/-! ### Claim C9: termination of the chain-collision loop -/

theorem moveLoopStep_decreases (n : Nat) (dir : RotationDirection)
    (w : List Slot) (g : List Nat) (r : Nat) (hr : 0 < r) :
    (moveLoopStep n dir w g r).2.2 < r := by
  simp only [moveLoopStep]
  split_ifs
  all_goals first
  | exact hr
  | (show r - (findDistanceToCollision n g dir w - 1) - 1 < r
     omega)
  | (show r - (findDistanceToCollision n g dir w - 1) < r
     omega)

theorem moveLoopAux_zero_remaining (n : Nat) (dir : RotationDirection)
    (fuel : Nat) (w : List Slot) (g : List Nat) :
    moveLoopAux n dir fuel w g 0 = (w, g) := by
  cases fuel with
  | zero => rfl
  | succ fuel => rw [moveLoopAux, if_pos rfl]

theorem moveLoopAux_fuel_irrelevant (n : Nat) (dir : RotationDirection) :
    ∀ (r fuel : Nat) (w : List Slot) (g : List Nat), r ≤ fuel →
      moveLoopAux n dir fuel w g r = moveLoopAux n dir r w g r := by
  intro r
  induction r using Nat.strong_induction_on with
  | _ r ih =>
    intro fuel w g hrf
    cases hr : r with
    | zero => rw [moveLoopAux_zero_remaining, moveLoopAux_zero_remaining]
    | succ r' =>
      subst hr
      cases fuel with
      | zero => omega
      | succ fuel' =>
        rw [moveLoopAux, moveLoopAux, if_neg (Nat.succ_ne_zero r'),
          if_neg (Nat.succ_ne_zero r')]
        have hdec := moveLoopStep_decreases n dir w g (r' + 1) (Nat.succ_pos r')
        set next := moveLoopStep n dir w g (r' + 1) with hnext
        have h1 : moveLoopAux n dir fuel' next.1 next.2.1 next.2.2 =
            moveLoopAux n dir next.2.2 next.1 next.2.1 next.2.2 :=
          ih next.2.2 hdec fuel' next.1 next.2.1 (by omega)
        have h2 : moveLoopAux n dir r' next.1 next.2.1 next.2.2 =
            moveLoopAux n dir next.2.2 next.1 next.2.1 next.2.2 :=
          ih next.2.2 hdec r' next.1 next.2.1 (by omega)
        rw [h1, h2]

/-- C9: the chain-collision loop of `moveGroup` terminates — every pass of
the loop body strictly decreases the remaining movement by at least one, so
the loop finishes within its initial `remainingMovement` passes (running it
with any larger fuel changes nothing). -/
theorem moveLoop_terminates :
    (∀ (n : Nat) (dir : RotationDirection) (w : List Slot) (g : List Nat) (r : Nat),
      0 < r → (moveLoopStep n dir w g r).2.2 < r) ∧
    (∀ (n : Nat) (dir : RotationDirection) (fuel : Nat) (w : List Slot) (g : List Nat)
      (r : Nat), r ≤ fuel →
      moveLoopAux n dir fuel w g r = moveLoopAux n dir r w g r) :=
  ⟨fun n dir w g r hr => moveLoopStep_decreases n dir w g r hr,
   fun n dir fuel w g r h => moveLoopAux_fuel_irrelevant n dir r fuel w g h⟩

/-- C9 witness: the termination bound at the canonical scenario — one loop
pass at remaining movement 4 leaves strictly less than 4, and fuel beyond
the requested amount is irrelevant. -/
theorem moveLoop_terminates_witness :
    (moveLoopStep 8 .clockwise chainScenarioSlots [0, 1] 4).2.2 < 4 ∧
    moveLoopAux 8 .clockwise 99 chainScenarioSlots [0, 1] 4 =
      moveLoopAux 8 .clockwise 4 chainScenarioSlots [0, 1] 4 :=
  ⟨moveLoop_terminates.1 8 .clockwise chainScenarioSlots [0, 1] 4 (by decide),
   moveLoop_terminates.2 8 .clockwise 99 chainScenarioSlots [0, 1] 4 (by decide)⟩

/-! ### Claim C5: no `InvalidGroup` validation in move -/

/-- C5, counterexample: moving the group `[0]` whose slot 0 is Empty does not
fail and does mutate the ring — the empty marker is relocated (slot 1 ends
filled with no tile, `T1` is pushed to slot 2). -/
theorem move_empty_slot_group_mutates :
    (moveGroupCore 4 [0] .clockwise invalidGroupSlots 1).1 ≠ invalidGroupSlots ∧
    (invalidGroupSlots.getD 0 default).filled = false := by
  decide

theorem moveLoopAux_nil_group (n : Nat) (dir : RotationDirection) :
    ∀ (fuel : Nat) (w : List Slot) (r : Nat),
      moveLoopAux n dir fuel w [] r = (w, []) := by
  intro fuel
  induction fuel with
  | zero => intro w r; rfl
  | succ fuel ih =>
    intro w r
    rw [moveLoopAux]
    by_cases hr : r = 0
    · rw [if_pos hr]
    · rw [if_neg hr]
      have hstep : (moveLoopStep n dir w [] r).1 = w ∧
          (moveLoopStep n dir w [] r).2.1 = [] := by
        simp only [moveLoopStep]
        split_ifs <;> exact ⟨rfl, rfl⟩
      show moveLoopAux n dir fuel (moveLoopStep n dir w [] r).1
        (moveLoopStep n dir w [] r).2.1 (moveLoopStep n dir w [] r).2.2 = (w, [])
      rw [hstep.1, hstep.2]
      exact ih w _

/-- C5, amended: move has no group validation and never fails — the only
rejected case is a null selection, which `handleMoveGroup` ignores without
mutation; an empty (but non-null) group on a not-fully-occupied ring leaves
the slots unchanged; a group containing an Empty slot is processed like any
other (relocating the empty marker, as the counterexample shows); no
`InvalidGroup` outcome exists. -/
theorem move_no_validation :
    (∀ (dir : RotationDirection) (amount : Nat) (st : GameState),
      st.selectedGroup = none → handleMoveGroup dir amount st = st) ∧
    (∀ (n : Nat) (dir : RotationDirection) (slots : List Slot) (amount : Nat),
      areAllSlotsFilled slots = false →
      (moveGroupCore n [] dir slots amount).1 = slots) := by
  constructor
  · intro dir amount st h
    unfold handleMoveGroup
    rw [h]
  · intro n dir slots amount h
    unfold moveGroupCore
    rw [if_neg (by rw [h]; exact Bool.false_ne_true)]
    rw [moveLoopAux_nil_group]
    rfl

/-- C5 witness: the amended statement at concrete inputs. -/
theorem move_no_validation_witness :
    handleMoveGroup .clockwise 2 placeDemoState = placeDemoState ∧
    (moveGroupCore 4 [] .clockwise invalidGroupSlots 7).1 = invalidGroupSlots :=
  ⟨move_no_validation.1 .clockwise 2 placeDemoState rfl,
   move_no_validation.2 4 .clockwise invalidGroupSlots 7 (by decide)⟩

/-! ### Claim C8: snapshot validation on load -/

/-- C8, counterexample: a snapshot whose slot id is the non-integer number
3/2 must be rejected according to the claim ("non-integer id"), yet the code
only checks `typeof slot.id === 'number'`, accepts it, and does not fall
back to the fresh game. -/
theorem load_accepts_fractional_id :
    specRejectCond badIdSave = true ∧
    (getInitialState (some badIdSave)).isFresh = false := by
  constructor
  · decide
  · rfl

/-- C8, amended: loading rejects a stored snapshot — treating it as absent so
`getInitialState` yields the fresh-game defaults — exactly when one of the
code's checks fails: `version`, `playerCount` or `slotCount` is not a number,
`gamePhase` is not a string, `slots` is not an array of length `slotCount`,
or some slot entry has a non-boolean `filled` or a non-number `id`
(fractional numeric ids are accepted); additionally, an accepted snapshot
whose `gamePhase` is not the string `'playing'` is also treated as fresh. -/
theorem getInitialState_fresh_characterisation (s : JVal) :
    (getInitialState (some s)).isFresh = false ↔
      (loadChecks s = true ∧ jget s "gamePhase" = some (.jstr "playing")) := by
  have hload : loadGameState (some s) = if loadChecks s = true then some s else none := rfl
  unfold getInitialState
  rw [hload]
  by_cases hc : loadChecks s = true
  · rw [if_pos hc]
    have hphase : ∃ phase, jget s "gamePhase" = some (.jstr phase) := by
      have hc' := hc
      unfold loadChecks at hc'
      rw [Bool.and_eq_true, Bool.and_eq_true, Bool.and_eq_true, Bool.and_eq_true] at hc'
      rcases hc' with ⟨⟨⟨⟨_, h2⟩, _⟩, _⟩, _⟩
      cases hg : jget s "gamePhase" with
      | none => rw [hg] at h2; exact absurd h2 (by simp)
      | some v =>
        cases v with
        | jstr phase => exact ⟨phase, rfl⟩
        | null => rw [hg] at h2; exact absurd h2 (by simp)
        | jbool b => rw [hg] at h2; exact absurd h2 (by simp)
        | jnum a b => rw [hg] at h2; exact absurd h2 (by simp)
        | jarr xs => rw [hg] at h2; exact absurd h2 (by simp)
        | jobj fs => rw [hg] at h2; exact absurd h2 (by simp)
    rcases hphase with ⟨phase, hphase⟩
    by_cases hp : phase = "playing"
    · subst hp
      simp [hphase, hc, InitialState.isFresh]
    · simp [hphase, hc, InitialState.isFresh, hp]
  · rw [if_neg hc]
    simp [InitialState.isFresh, hc]

/-! ### Claim C10: every restore path rebuilds the players from the counts -/

theorem handleActionRedo_fields (u : GameState) (h : u.actionRedoStack ≠ []) :
    (handleActionRedo u).slots = (u.actionRedoStack.getLastD default).slots ∧
    (handleActionRedo u).slotCount = (u.actionRedoStack.getLastD default).slotCount ∧
    (handleActionRedo u).currentPlayerIndex =
      (u.actionRedoStack.getLastD default).currentPlayerIndex ∧
    (handleActionRedo u).playerResources =
      ((u.actionRedoStack.getLastD default).playerResources).getD [] ∧
    (handleActionRedo u).playerVictoryPoints =
      ((u.actionRedoStack.getLastD default).playerVictoryPoints).getD [] ∧
    (handleActionRedo u).playerRotationPoints =
      ((u.actionRedoStack.getLastD default).playerRotationPoints).getD [] ∧
    (handleActionRedo u).players =
      createPlayers (u.actionRedoStack.getLastD default).playerCount
        (u.actionRedoStack.getLastD default).slotCount ∧
    (handleActionRedo u).hasRotatedThisTurn = false ∧
    (handleActionRedo u).hasPlacedTileThisTurn = false := by
  unfold handleActionRedo
  rw [if_neg (by simpa [List.isEmpty_iff] using h)]
  cases getCurrentState u <;>
    exact ⟨rfl, rfl, rfl, rfl, rfl, rfl, rfl, rfl, rfl⟩

/-- C10: restoring any snapshot (loading a save, action undo, action redo,
turn undo in restart mode, turn redo) rebuilds the player set from
`playerCount` and `slotCount` alone — player `i` sits at
`round(i*slotCount/playerCount) mod slotCount` — and resets both per-turn
flags to false, since snapshots record no player positions or flags. -/
theorem restore_rebuilds_players :
    (∀ (saved : SavedGameState) (st : GameState),
      (handleLoadSave saved st).players = createPlayers saved.playerCount saved.slotCount ∧
      (handleLoadSave saved st).hasRotatedThisTurn = false ∧
      (handleLoadSave saved st).hasPlacedTileThisTurn = false) ∧
    (∀ (p n i : Nat), i < p →
      (createPlayers p n).getD i default = ⟨i, ((jsRound (i * n) p % n : Nat) : Int)⟩) ∧
    (∀ st : GameState, st.actionUndoStack ≠ [] →
      (handleActionUndo st).players =
        createPlayers (st.actionUndoStack.getLastD default).playerCount
          (st.actionUndoStack.getLastD default).slotCount ∧
      (handleActionUndo st).hasRotatedThisTurn = false) ∧
    (∀ st : GameState, st.actionRedoStack ≠ [] →
      (handleActionRedo st).players =
        createPlayers (st.actionRedoStack.getLastD default).playerCount
          (st.actionRedoStack.getLastD default).slotCount) ∧
    (∀ (st : GameState) (turnStart : SavedGameState), st.actionUndoStack ≠ [] →
      st.currentTurnStartState = some turnStart →
      (handleTurnUndo st).players =
        createPlayers turnStart.playerCount turnStart.slotCount) ∧
    (∀ st : GameState, st.turnRedoStack ≠ [] →
      (handleTurnRedo st).players =
        createPlayers (st.turnRedoStack.getLastD default).playerCount
          (st.turnRedoStack.getLastD default).slotCount) := by
  refine ⟨fun saved st => ⟨rfl, rfl, rfl⟩, ?_, ?_, ?_, ?_, ?_⟩
  · intro p n i hip
    unfold createPlayers
    rw [if_neg (by omega)]
    rw [List.getD_eq_getElem?_getD, List.getElem?_map, List.getElem?_range hip]
    rfl
  · intro st h
    unfold handleActionUndo
    rw [if_neg (by simpa [List.isEmpty_iff] using h)]
    cases getCurrentState st <;> exact ⟨rfl, rfl⟩
  · intro st h
    exact (handleActionRedo_fields st h).2.2.2.2.2.2.1
  · intro st turnStart h1 h2
    unfold handleTurnUndo
    have hmode : turnUndoMode st = .restart := by
      unfold turnUndoMode
      rw [if_pos (by simpa [List.isEmpty_iff] using h1)]
    rw [hmode, h2]
    cases getCurrentState st <;> rfl
  · intro st h
    unfold handleTurnRedo
    rw [if_neg (by simpa [List.isEmpty_iff] using h)]
    cases st.currentTurnStartState <;> rfl

/-- C10 witness: the restore formula at a concrete snapshot and state —
loading `demoSnap` into `undoDemoMoved` yields the freshly spaced players
`[(0,0), (1,2)]` and cleared flags. -/
theorem restore_rebuilds_players_witness :
    (handleLoadSave demoSnap undoDemoMoved).players = createPlayers 2 4 ∧
    (handleLoadSave demoSnap undoDemoMoved).hasRotatedThisTurn = false ∧
    (createPlayers 2 4).getD 1 default = ⟨1, ((jsRound (1 * 4) 2 % 4 : Nat) : Int)⟩ :=
  ⟨(restore_rebuilds_players.1 demoSnap undoDemoMoved).1,
   (restore_rebuilds_players.1 demoSnap undoDemoMoved).2.1,
   restore_rebuilds_players.2.1 2 4 1 (by decide)⟩

/-! ### Claim C6: undo immediately followed by redo -/

/-- C6, counterexample: after one committed move whose tile effect relocated
player 0 (from slot 0 to slot 1), `undoAction(); redoAction()` does not
restore the players: their `slotIndex` alignments are rebuilt from the
initial spacing, so the restored state differs from the state before the
pair. -/
theorem undo_redo_loses_player_position :
    (handleActionRedo (handleActionUndo undoDemoMoved)).players ≠
      undoDemoMoved.players ∧
    undoDemoMoved.actionUndoStack ≠ [] ∧
    undoDemoMoved.gamePhase = .playing := by
  decide

theorem handleActionUndo_redoStack (st : GameState) (hg : st.gamePhase = .playing)
    (hs : st.actionUndoStack ≠ []) :
    (handleActionUndo st).actionRedoStack =
      st.actionRedoStack ++
        [⟨1, st.gamePhase, st.players.length, st.slotCount, st.slots,
          st.currentPlayerIndex, some st.playerResources, some st.playerVictoryPoints,
          some st.playerRotationPoints⟩] := by
  have hcur : getCurrentState st =
      some ⟨1, st.gamePhase, st.players.length, st.slotCount, st.slots,
        st.currentPlayerIndex, some st.playerResources, some st.playerVictoryPoints,
        some st.playerRotationPoints⟩ := by
    unfold getCurrentState
    rw [if_pos hg]
  unfold handleActionUndo
  rw [if_neg (by simpa [List.isEmpty_iff] using hs), hcur]
  rfl

/-- C6, amended: within a turn with at least one committed action,
`undoAction(); redoAction()` restores exactly the snapshot-recorded
components bit-equal — the slots array, the slot count, the current player
index and all three per-player counter maps — but not the whole RingState:
the players are rebuilt from `playerCount`/`slotCount` (resetting each
`slotIndex` to the initial spacing) and the per-turn flags are reset,
because snapshots record neither. -/
theorem undo_redo_restores_snapshot_fields (st : GameState)
    (hg : st.gamePhase = .playing) (hs : st.actionUndoStack ≠ []) :
    (handleActionRedo (handleActionUndo st)).slots = st.slots ∧
    (handleActionRedo (handleActionUndo st)).slotCount = st.slotCount ∧
    (handleActionRedo (handleActionUndo st)).currentPlayerIndex =
      st.currentPlayerIndex ∧
    (handleActionRedo (handleActionUndo st)).playerResources = st.playerResources ∧
    (handleActionRedo (handleActionUndo st)).playerVictoryPoints =
      st.playerVictoryPoints ∧
    (handleActionRedo (handleActionUndo st)).playerRotationPoints =
      st.playerRotationPoints ∧
    (handleActionRedo (handleActionUndo st)).players =
      createPlayers st.players.length st.slotCount ∧
    (handleActionRedo (handleActionUndo st)).hasRotatedThisTurn = false ∧
    (handleActionRedo (handleActionUndo st)).hasPlacedTileThisTurn = false := by
  have hstack := handleActionUndo_redoStack st hg hs
  have hne : (handleActionUndo st).actionRedoStack ≠ [] := by
    rw [hstack]
    simp
  have hlast : (handleActionUndo st).actionRedoStack.getLastD default =
      ⟨1, st.gamePhase, st.players.length, st.slotCount, st.slots,
        st.currentPlayerIndex, some st.playerResources, some st.playerVictoryPoints,
        some st.playerRotationPoints⟩ := by
    rw [hstack, List.getLastD_concat]
  have hf := handleActionRedo_fields (handleActionUndo st) hne
  rw [hlast] at hf
  exact hf

/-- C6 witness: the amended statement at the concrete one-move scenario. -/
theorem undo_redo_restores_snapshot_fields_witness :
    (handleActionRedo (handleActionUndo undoDemoMoved)).slots =
      undoDemoMoved.slots ∧
    (handleActionRedo (handleActionUndo undoDemoMoved)).playerResources =
      undoDemoMoved.playerResources ∧
    (handleActionRedo (handleActionUndo undoDemoMoved)).players =
      createPlayers undoDemoMoved.players.length undoDemoMoved.slotCount :=
  ⟨(undo_redo_restores_snapshot_fields undoDemoMoved (by decide) (by decide)).1,
   (undo_redo_restores_snapshot_fields undoDemoMoved (by decide) (by decide)).2.2.2.1,
   (undo_redo_restores_snapshot_fields undoDemoMoved (by decide) (by decide)).2.2.2.2.2.2.1⟩

/-! ### Claim C7: effect checks read the pass-start snapshot -/

theorem effectStep_preserves_victory (snapResources : List (Nat × Int)) (N : Nat)
    (slots : List Slot) (st : EffSt) (p : Player) (b : Nat) (hne : p.id ≠ b) :
    rgetD (effectStep snapResources N slots st p).playerVictoryPoints b 0 =
      rgetD st.playerVictoryPoints b 0 := by
  simp only [effectStep]
  split
  · split
    · rfl
    · split_ifs with hv
      · exact rgetD_rset_ne _ _ (fun h => hne h.symm) _
      · rfl
    · rfl
    · split
      · split_ifs <;> rfl
      · rfl
    · split
      · rfl
      · rfl
    · rfl
    · rfl
    · rfl
  · rfl

theorem foldl_effectStep_preserves_victory (snapResources : List (Nat × Int))
    (N : Nat) (slots : List Slot) (b : Nat) :
    ∀ (l : List Player) (st : EffSt), (∀ p ∈ l, p.id ≠ b) →
      rgetD (l.foldl (effectStep snapResources N slots) st).playerVictoryPoints b 0 =
        rgetD st.playerVictoryPoints b 0
  | [], st, _ => rfl
  | p :: l, st, h => by
    rw [List.foldl_cons,
      foldl_effectStep_preserves_victory snapResources N slots b l _
        (fun q hq => h q (by simp [hq])),
      effectStep_preserves_victory snapResources N slots st p b (h p (by simp))]

/-- C7: within one effect-resolution pass, the Victory-conversion and
Transfer precondition checks read the resource values captured at the start
of the pass (the render-time closure), not the running counters.  A player's
final victory points are a function of the pass-start snapshot alone — no
other player's Resource gain or Transfer in the same pass can change whether
the conversion fires — while every delta is still applied to the running
counters that become the final ones. -/
theorem effect_checks_read_snapshot :
    (∀ (playersSnap : List Player) (snapResources : List (Nat × Int)) (N : Nat)
       (slots : List Slot) (init : EffSt) (b : Player) (tile : TileData),
      (playersSnap.map Player.id).Nodup → b ∈ playersSnap →
      (slotAtInt slots b.slotIndex).filled = true →
      (slotAtInt slots b.slotIndex).tile = some tile →
      tile.typeId = .victory →
      rgetD (triggerTileEffects playersSnap snapResources N slots
          init).playerVictoryPoints b.id 0 =
        rgetD init.playerVictoryPoints b.id 0 +
          (if tile.value.getD 1 ≤ rgetD snapResources b.id 0 then tile.value.getD 1
           else 0)) ∧
    (∀ (snapResources : List (Nat × Int)) (N : Nat) (slots : List Slot) (st : EffSt)
       (b : Player) (tile : TileData) (o : Nat),
      (slotAtInt slots b.slotIndex).filled = true →
      (slotAtInt slots b.slotIndex).tile = some tile →
      tile.typeId = .transfer → tile.ownerId = some o → o ≠ b.id →
      (effectStep snapResources N slots st b).playerResources =
        (if 0 < rgetD snapResources b.id 0 then
          rset (rset st.playerResources b.id 0) o
            (rgetD st.playerResources o 0 + rgetD snapResources b.id 0)
        else st.playerResources)) := by
  constructor
  · intro playersSnap snapResources N slots init b tile hnodup hmem hfill htile hvic
    rcases List.mem_iff_append.mp hmem with ⟨l₁, l₂, rfl⟩
    have hids : (l₁.map Player.id ++ b.id :: l₂.map Player.id).Nodup := by
      simpa using hnodup
    rw [List.nodup_append] at hids
    have hb1 : ∀ p ∈ l₁, p.id ≠ b.id := by
      intro p hp heq
      exact hids.2.2 (heq ▸ List.mem_map_of_mem Player.id hp) (by simp)
    have hb2 : ∀ p ∈ l₂, p.id ≠ b.id := by
      intro p hp heq
      have := hids.2.1
      rw [List.nodup_cons] at this
      exact this.1 (heq ▸ List.mem_map_of_mem Player.id hp)
    unfold triggerTileEffects
    rw [List.foldl_append, List.foldl_cons]
    rw [foldl_effectStep_preserves_victory snapResources N slots b.id l₂ _ hb2]
    have hmid : rgetD (l₁.foldl (effectStep snapResources N slots)
        init).playerVictoryPoints b.id 0 = rgetD init.playerVictoryPoints b.id 0 :=
      foldl_effectStep_preserves_victory snapResources N slots b.id l₁ init hb1
    set st₁ := l₁.foldl (effectStep snapResources N slots) init with hst₁
    simp only [effectStep, hfill, htile, hvic]
    split_ifs with hcheck
    · rw [rgetD_rset_self, hmid]
    · rw [hmid]
      exact (Int.add_zero _).symm
  · intro snapResources N slots st b tile o hfill htile htrans howner hne
    simp only [effectStep, hfill, htile, htrans, howner]
    rw [if_pos hne]
    split_ifs with hamt
    · rfl
    · rfl

/-- C7 witness: player 0's transfer tile sends their 5 resources to player 1
earlier in the pass, yet player 1's victory conversion (rate 5) still
no-ops because the check reads the pass-start snapshot, where player 1 had
0 resources; the transferred 5 resources do land on player 1's final
counter. -/
theorem effect_checks_read_snapshot_witness :
    rgetD (triggerTileEffects effDemoPlayers effDemoResources 2 effDemoSlots
        effDemoInit).playerVictoryPoints 1 0 = 0 ∧
    rgetD (triggerTileEffects effDemoPlayers effDemoResources 2 effDemoSlots
        effDemoInit).playerResources 1 0 = 5 := by
  constructor
  · have h := effect_checks_read_snapshot.1 effDemoPlayers effDemoResources 2
      effDemoSlots effDemoInit ⟨1, 1⟩ effDemoVictoryTile (by decide) (by decide)
      (by decide) (by decide) rfl
    rw [h]
    decide
  · decide

/-! ### Claim C2: full ring moves are rigid rotations -/

/-- C2: on a fully occupied ring the selected group is irrelevant — moving
any group by `k` equals moving the whole ring — and the tile initially at
slot `i` ends at slot `(i+k) mod N` for a Right/clockwise move, at
`(i-k) mod N` for a Left move, for all `i`. -/
theorem full_ring_move_is_rotation (N : Nat) (slots : List Slot) (group : List Nat)
    (dir : RotationDirection) (k : Nat) (hn : 0 < N) (hlen : slots.length = N)
    (hfull : areAllSlotsFilled slots = true) (_hk : 1 ≤ k) :
    (moveGroupCore N group dir slots k).1 =
      (moveGroupCore N (List.range N) dir slots k).1 ∧
    (∀ i, i < N →
      ((moveGroupCore N group dir slots k).1.getD (shiftIdx N dir k i) default).tile =
        (slots.getD i default).tile) ∧
    (∀ i, i < N →
      ((shiftIdx N .clockwise k i : Nat) : Int) = ((i : Int) + (k : Int)) % (N : Int) ∧
      ((shiftIdx N .counterclockwise k i : Nat) : Int) =
        ((i : Int) - (k : Int)) % (N : Int)) := by
  have hcore : ∀ g : List Nat, (moveGroupCore N g dir slots k).1 =
      (applyGroupMove N (List.range N) dir k slots).1 := by
    intro g
    simp only [moveGroupCore, hfull, if_true]
    split <;> rfl
  refine ⟨by rw [hcore group, hcore (List.range N)], ?_, ?_⟩
  · intro i hi
    rw [hcore group]
    rw [applyGroupMove_getD_mem hn hlen (List.mem_range.mpr hi)
      (fun x hx => List.mem_range.mp hx)]
  · intro i _
    constructor
    · have harg : (i : Int) + dirStep .clockwise * (k : Int) = (i : Int) + (k : Int) := by
        simp [dirStep]
      rw [shiftIdx, harg, wrapIdx_coe hn]
    · have harg : (i : Int) + dirStep .counterclockwise * (k : Int) =
          (i : Int) - (k : Int) := by
        simp [dirStep]
        ring
      rw [shiftIdx, harg, wrapIdx_coe hn]

/-- C2 witness: N=8 full ring `T0..T7`, move right by 3 — the tile at slot 2
ends at slot `(2+3) mod 8`, and the choice of group does not matter. -/
theorem full_ring_move_is_rotation_witness :
    (moveGroupCore 8 [2] .clockwise fullRingSlots 3).1 =
      (moveGroupCore 8 (List.range 8) .clockwise fullRingSlots 3).1 ∧
    ((moveGroupCore 8 [2] .clockwise fullRingSlots 3).1.getD
        (shiftIdx 8 .clockwise 3 2) default).tile =
      (fullRingSlots.getD 2 default).tile ∧
    ((shiftIdx 8 .clockwise 3 2 : Nat) : Int) = ((2 : Int) + 3) % 8 :=
  ⟨(full_ring_move_is_rotation 8 fullRingSlots [2] .clockwise 3 (by decide) (by decide)
      (by decide) (by decide)).1,
   (full_ring_move_is_rotation 8 fullRingSlots [2] .clockwise 3 (by decide) (by decide)
      (by decide) (by decide)).2.1 2 (by decide),
   ((full_ring_move_is_rotation 8 fullRingSlots [2] .clockwise 3 (by decide) (by decide)
      (by decide) (by decide)).2.2 2 (by decide)).1⟩

/-! ### Tile conservation machinery for claim C3 -/

theorem tileIds_cons (a : Slot) (l : List Slot) :
    tileIds (a :: l) = slotIds a + tileIds l := by
  unfold tileIds slotIds
  cases ht : a.tile with
  | none => simp [List.filterMap_cons, ht]
  | some t => simp [List.filterMap_cons, ht]

theorem tileIds_eq_sum (slots : List Slot) :
    tileIds slots = ∑ j ∈ Finset.range slots.length, slotIds (slots.getD j default) := by
  induction slots with
  | nil => rfl
  | cons a l ih =>
    rw [tileIds_cons, ih, List.length_cons, Finset.sum_range_succ']
    simp only [List.getD_cons_succ, List.getD_cons_zero]
    rw [add_comm]

theorem slotIds_of_tile_eq {s s' : Slot} (h : s.tile = s'.tile) :
    slotIds s = slotIds s' := by
  unfold slotIds
  rw [h]

theorem applyGroupMove_tileIds {N : Nat} (hn : 0 < N) {g : List Nat}
    {dir : RotationDirection} {k : Nat} {w : List Slot} (hlen : w.length = N)
    (hrange : ∀ x ∈ g, x < N)
    (hwf1 : ∀ j, j < N → (w.getD j default).filled = false →
      (w.getD j default).tile = none)
    (hfree : ∀ o ∈ g, shiftIdx N dir k o ∉ g →
      (w.getD (shiftIdx N dir k o) default).filled = false) :
    tileIds (applyGroupMove N g dir k w).1 = tileIds w := by
  classical
  set σ := shiftIdx N dir k with hσ
  set G := g.toFinset with hG
  set S := G.image σ with hS
  set res := (applyGroupMove N g dir k w).1 with hres
  have hreslen : res.length = N := by
    rw [hres, applyGroupMove_slots_length, hlen]
  have hSsub : S ⊆ Finset.range N := by
    intro j hj
    rw [hS, Finset.mem_image] at hj
    rcases hj with ⟨o, _, rfl⟩
    exact Finset.mem_range.mpr (shiftIdx_lt hn dir k o)
  have hGsub : G ⊆ Finset.range N := by
    intro j hj
    rw [hG, List.mem_toFinset] at hj
    exact Finset.mem_range.mpr (hrange j hj)
  -- the tile-id weight of the original board at index j
  set f : Nat → Multiset String := fun j => slotIds (w.getD j default) with hfdef
  have hmemS : ∀ j, j ∈ S ↔ ∃ o ∈ g, σ o = j := by
    intro j
    rw [hS, Finset.mem_image]
    constructor
    · rintro ⟨o, ho, rfl⟩
      exact ⟨o, (hG ▸ List.mem_toFinset).mp ho, rfl⟩
    · rintro ⟨o, ho, rfl⟩
      exact ⟨o, by rw [hG, List.mem_toFinset]; exact ho, rfl⟩
  have hmemG : ∀ j, j ∈ G ↔ j ∈ g := by
    intro j
    rw [hG, List.mem_toFinset]
  -- pointwise description of the moved board
  have hpt_mem : ∀ o ∈ g, slotIds (res.getD (σ o) default) = f o := by
    intro o ho
    rw [hres, hσ, applyGroupMove_getD_mem hn hlen ho hrange]
    rfl
  have hpt_cleared : ∀ j, j < N → j ∉ S → j ∈ g →
      slotIds (res.getD j default) = 0 := by
    intro j hj hjS hjg
    have hnot : ∀ o ∈ g, σ o ≠ j := by
      intro o ho heq
      exact hjS ((hmemS j).mpr ⟨o, ho, heq⟩)
    rw [hres, applyGroupMove_getD_cleared hjg hnot (by rw [hlen]; exact hj)]
    rfl
  have hpt_other : ∀ j, j < N → j ∉ S → j ∉ g →
      slotIds (res.getD j default) = f j := by
    intro j hj hjS hjg
    have hnot : ∀ o ∈ g, σ o ≠ j := by
      intro o ho heq
      exact hjS ((hmemS j).mpr ⟨o, ho, heq⟩)
    rw [hres, applyGroupMove_getD_other hjg hnot (by rw [hlen]; exact hj)]
  have hd : ∀ j ∈ S, j ∉ G → f j = 0 := by
    intro j hjS hjG
    rcases (hmemS j).mp hjS with ⟨o, ho, rfl⟩
    have hfree' := hfree o ho (fun hmem => hjG ((hmemG (σ o)).mpr hmem))
    have := hwf1 (σ o) (shiftIdx_lt hn dir k o) hfree'
    show slotIds (w.getD (σ o) default) = 0
    unfold slotIds
    rw [this]
  -- sum over the image equals sum over the group
  have hinj : ∀ x ∈ G, ∀ y ∈ G, σ x = σ y → x = y := by
    intro x hx y hy hxy
    exact shiftIdx_inj hn dir k (hrange x ((hmemG x).mp hx))
      (hrange y ((hmemG y).mp hy)) hxy
  have himage : ∑ j ∈ S, slotIds (res.getD j default) =
      ∑ o ∈ G, slotIds (res.getD (σ o) default) := by
    rw [hS]
    exact Finset.sum_image hinj
  have himage2 : ∑ o ∈ G, slotIds (res.getD (σ o) default) = ∑ o ∈ G, f o := by
    refine Finset.sum_congr rfl ?_
    intro o ho
    exact hpt_mem o ((hmemG o).mp ho)
  -- split both sides over membership in S and G
  rw [tileIds_eq_sum res, tileIds_eq_sum w, hreslen, hlen]
  rw [← Finset.sum_filter_add_sum_filter_not (Finset.range N) (fun j => j ∈ S)
    (fun j => slotIds (res.getD j default))]
  rw [← Finset.sum_filter_add_sum_filter_not (Finset.range N) (fun j => j ∈ G)
    (fun j => slotIds (w.getD j default))]
  have hfilterS : (Finset.range N).filter (fun j => j ∈ S) = S := by
    rw [Finset.filter_mem_eq_inter, Finset.inter_eq_right.mpr hSsub]
  have hfilterG : (Finset.range N).filter (fun j => j ∈ G) = G := by
    rw [Finset.filter_mem_eq_inter, Finset.inter_eq_right.mpr hGsub]
  rw [hfilterS, hfilterG, himage, himage2]
  -- remaining sums: outside S on the left, outside G on the right
  have hleft : ∑ j ∈ (Finset.range N).filter (fun j => j ∉ S),
      slotIds (res.getD j default) =
      ∑ j ∈ ((Finset.range N).filter (fun j => j ∉ S)).filter (fun j => j ∉ G),
        (fun j => slotIds (w.getD j default)) j := by
    rw [← Finset.sum_filter_add_sum_filter_not ((Finset.range N).filter (fun j => j ∉ S))
      (fun j => j ∉ G) (fun j => slotIds (res.getD j default))]
    have hz : ∑ j ∈ (((Finset.range N).filter (fun j => j ∉ S)).filter
        (fun j => ¬j ∉ G)), slotIds (res.getD j default) = 0 := by
      refine Finset.sum_eq_zero ?_
      intro j hj
      rw [Finset.mem_filter, Finset.mem_filter, Finset.mem_range] at hj
      exact hpt_cleared j hj.1.1 hj.1.2 ((hmemG j).mp (Classical.not_not.mp hj.2))
    rw [add_comm, hz, zero_add]
    refine Finset.sum_congr rfl ?_
    intro j hj
    rw [Finset.mem_filter, Finset.mem_filter, Finset.mem_range] at hj
    exact hpt_other j hj.1.1 hj.1.2 (fun hmem => hj.2 ((hmemG j).mpr hmem))
  have hright : ∑ j ∈ (Finset.range N).filter (fun j => j ∉ G),
      (fun j => slotIds (w.getD j default)) j =
      ∑ j ∈ ((Finset.range N).filter (fun j => j ∉ G)).filter (fun j => j ∉ S),
        (fun j => slotIds (w.getD j default)) j := by
    rw [← Finset.sum_filter_add_sum_filter_not ((Finset.range N).filter (fun j => j ∉ G))
      (fun j => j ∉ S) (fun j => slotIds (w.getD j default))]
    have hz : ∑ j ∈ (((Finset.range N).filter (fun j => j ∉ G)).filter
        (fun j => ¬j ∉ S)), slotIds (w.getD j default) = 0 := by
      refine Finset.sum_eq_zero ?_
      intro j hj
      rw [Finset.mem_filter, Finset.mem_filter, Finset.mem_range] at hj
      exact hd j (Classical.not_not.mp hj.2) (fun hG' => hj.1.2 hG')
    rw [add_comm, hz, zero_add]
  rw [hleft, hright, Finset.filter_comm]

/-- Structural invariants preserved by `applyGroupMove`: board length, the
slot well-formedness of §3, and the shifted group's basic properties. -/
theorem applyGroupMove_invariants {N : Nat} (hn : 0 < N) {g : List Nat}
    {dir : RotationDirection} {k : Nat} {w : List Slot} (hlen : w.length = N)
    (hrange : ∀ x ∈ g, x < N)
    (hwf1 : ∀ j, j < N → (w.getD j default).filled = false →
      (w.getD j default).tile = none)
    (hwf2 : ∀ j, j < N → (w.getD j default).filled = true →
      (w.getD j default).tile ≠ none)
    (hfilled : ∀ o ∈ g, (w.getD o default).filled = true) :
    (applyGroupMove N g dir k w).1.length = N ∧
    (∀ j, j < N → ((applyGroupMove N g dir k w).1.getD j default).filled = false →
      ((applyGroupMove N g dir k w).1.getD j default).tile = none) ∧
    (∀ j, j < N → ((applyGroupMove N g dir k w).1.getD j default).filled = true →
      ((applyGroupMove N g dir k w).1.getD j default).tile ≠ none) ∧
    (applyGroupMove N g dir k w).2.Nodup ∧
    (∀ x ∈ (applyGroupMove N g dir k w).2, x < N ∧
      ((applyGroupMove N g dir k w).1.getD x default).filled = true) := by
  classical
  have hcases : ∀ j, j < N →
      (∃ o ∈ g, shiftIdx N dir k o = j) ∨
      ((∀ o ∈ g, shiftIdx N dir k o ≠ j) ∧ j ∈ g) ∨
      ((∀ o ∈ g, shiftIdx N dir k o ≠ j) ∧ j ∉ g) := by
    intro j _
    by_cases hS : ∃ o ∈ g, shiftIdx N dir k o = j
    · exact Or.inl hS
    · have hnot : ∀ o ∈ g, shiftIdx N dir k o ≠ j := by
        intro o ho heq
        exact hS ⟨o, ho, heq⟩
      by_cases hg : j ∈ g
      · exact Or.inr (Or.inl ⟨hnot, hg⟩)
      · exact Or.inr (Or.inr ⟨hnot, hg⟩)
  refine ⟨by rw [applyGroupMove_slots_length, hlen], ?_, ?_, ?_, ?_⟩
  · intro j hj hf
    rcases hcases j hj with ⟨o, ho, rfl⟩ | ⟨hnot, hg⟩ | ⟨hnot, hg⟩
    · rw [applyGroupMove_getD_mem hn hlen ho hrange] at hf
      exact absurd hf (by simp)
    · rw [applyGroupMove_getD_cleared hg hnot (by rw [hlen]; exact hj)]
    · rw [applyGroupMove_getD_other hg hnot (by rw [hlen]; exact hj)] at hf ⊢
      exact hwf1 j hj hf
  · intro j hj hf
    rcases hcases j hj with ⟨o, ho, rfl⟩ | ⟨hnot, hg⟩ | ⟨hnot, hg⟩
    · rw [applyGroupMove_getD_mem hn hlen ho hrange]
      have := hwf2 o (hrange o ho) (hfilled o ho)
      simpa using this
    · rw [applyGroupMove_getD_cleared hg hnot (by rw [hlen]; exact hj)] at hf
      exact absurd hf (by simp)
    · rw [applyGroupMove_getD_other hg hnot (by rw [hlen]; exact hj)] at hf ⊢
      exact hwf2 j hj hf
  · exact applyGroupMove_group_nodup N g dir k w
  · intro x hx
    rcases mem_applyGroupMove_group.mp hx with ⟨o, ho, rfl⟩
    refine ⟨shiftIdx_lt hn dir k o, ?_⟩
    rw [applyGroupMove_getD_mem hn hlen ho hrange]

/-- Composing shifts: shifting `m` by `a` and then by `b` more lands where a
single shift by `a+b` lands. -/
theorem shiftIdx_add {N : Nat} (hn : 0 < N) (dir : RotationDirection) (m a b : Nat) :
    wrapIdx N (((shiftIdx N dir a m : Nat) : Int) + dirStep dir * (b : Int)) =
      shiftIdx N dir (a + b) m := by
  unfold shiftIdx
  rw [wrapIdx_add hn]
  congr 1
  push_cast
  ring

/-- No slot within the collision distance ahead of the group is occupied:
if `k` is smaller than `findDistanceToCollision`, every member's destination
after a shift by `k` is either still in the group or Empty.  This is the
reason `applyGroupMove` never overwrites a foreign tile inside the loop. -/
theorem dest_free {N : Nat} (hn : 0 < N) {g : List Nat} {dir : RotationDirection}
    {w : List Slot} (hrange : ∀ x ∈ g, x < N) {m : Nat} (hm : m ∈ g)
    {k : Nat} (hk : k < findDistanceToCollision N g dir w)
    (hdest : shiftIdx N dir k m ∉ g) :
    (w.getD (shiftIdx N dir k m) default).filled = false := by
  classical
  by_contra hfillne
  have hfill : (w.getD (shiftIdx N dir k m) default).filled = true :=
    Bool.not_eq_false _ ▸ (by simpa using hfillne)
  have hdle : findDistanceToCollision N g dir w ≤ N := findDistanceToCollision_le N g dir w
  have hkN : k ≤ N - 1 := by omega
  -- the last position along the ray that is still inside the group
  set F := (Finset.range (k + 1)).filter (fun j => shiftIdx N dir j m ∈ g) with hF
  have h0F : 0 ∈ F := by
    rw [hF, Finset.mem_filter, Finset.mem_range]
    refine ⟨by omega, ?_⟩
    have h00 : shiftIdx N dir 0 m = m := by
      unfold shiftIdx
      have harg : (m : Int) + dirStep dir * ((0 : Nat) : Int) = (m : Int) := by
        push_cast
        ring
      rw [harg, wrapIdx_self m (hrange m hm)]
    rw [h00]
    exact hm
  have hFne : F.Nonempty := ⟨0, h0F⟩
  set s := F.max' hFne with hs
  have hsF : s ∈ F := Finset.max'_mem F hFne
  have hsk : s ≤ k := by
    have := (Finset.mem_filter.mp hsF).1
    rw [Finset.mem_range] at this
    omega
  have hsg : shiftIdx N dir s m ∈ g := by
    have := (Finset.mem_filter.mp hsF).2
    simpa using this
  have hslt : s < k := by
    rcases Nat.lt_or_ge s k with h | h
    · exact h
    · have : s = k := by omega
      rw [this] at hsg
      exact absurd hsg hdest
  have hnext : shiftIdx N dir (s + 1) m ∉ g := by
    intro hmem
    have : s + 1 ∈ F := by
      rw [hF, Finset.mem_filter, Finset.mem_range]
      exact ⟨by omega, by simpa using hmem⟩
    have := Finset.le_max' F (s + 1) this
    omega
  -- the member just before the gap is a leading edge
  have hedge : shiftIdx N dir s m ∈ getLeadingEdge N g dir := by
    unfold getLeadingEdge
    rw [List.mem_filter]
    refine ⟨hsg, ?_⟩
    have harg : ((shiftIdx N dir s m : Nat) : Int) + dirStep dir =
        ((shiftIdx N dir s m : Nat) : Int) + dirStep dir * ((1 : Nat) : Int) := by
      push_cast
      ring
    rw [decide_eq_true_eq, harg, shiftIdx_add hn]
    exact hnext
  -- the scan from that edge hits the occupied destination within k - s steps
  have hscan : ∃ t₀, scanCollision N w g dir (shiftIdx N dir s m) = some t₀ ∧
      t₀ ≤ k - s := by
    have hmem' : (k - s) ∈ List.range' 1 (N - 1) := by
      rw [List.mem_range']
      exact ⟨k - s - 1, by omega, by omega⟩
    have hpred : (fun (dist : Nat) =>
        decide ((w.getD (wrapIdx N (((shiftIdx N dir s m : Nat) : Int) +
            dirStep dir * ((dist : Nat) : Int))) default).filled = true ∧
          wrapIdx N (((shiftIdx N dir s m : Nat) : Int) +
            dirStep dir * ((dist : Nat) : Int)) ∉ g)) (k - s) = true := by
      rw [decide_eq_true_eq]
      have hcomp : wrapIdx N (((shiftIdx N dir s m : Nat) : Int) +
          dirStep dir * ((k - s : Nat) : Int)) = shiftIdx N dir k m := by
        rw [shiftIdx_add hn]
        congr 1
        omega
      rw [hcomp]
      exact ⟨hfill, hdest⟩
    rcases @find?_range'_first (fun (dist : Nat) =>
        decide ((w.getD (wrapIdx N (((shiftIdx N dir s m : Nat) : Int) +
            dirStep dir * ((dist : Nat) : Int))) default).filled = true ∧
          wrapIdx N (((shiftIdx N dir s m : Nat) : Int) +
            dirStep dir * ((dist : Nat) : Int)) ∉ g)) 1 (N - 1) (k - s) hmem' hpred with
      ⟨t₀, hfind, ht₀, _⟩
    refine ⟨t₀, ?_, ht₀⟩
    unfold scanCollision
    exact hfind
  rcases hscan with ⟨t₀, hscan, ht₀⟩
  have hd := findDistanceToCollision_le_scan hedge hscan
  omega

/-! ### Correctness of the BFS in `findConnectedGroup` -/

theorem filled_getD_lt {w : List Slot} {i : Nat}
    (h : (w.getD i default).filled = true) : i < w.length := by
  by_contra hge
  rw [List.getD_eq_default w default (by omega)] at h
  exact absurd h (by simp [default])

theorem length_filter_visited_append (L : List Nat) (visited : List Nat) (i : Nat)
    (hiL : i ∈ L) (hnodup : L.Nodup) (hi : i ∉ visited) :
    (L.filter (fun j => j ∉ visited ++ [i])).length + 1 =
      (L.filter (fun j => j ∉ visited)).length := by
  induction L with
  | nil => exact absurd hiL (List.not_mem_nil i)
  | cons a L ih =>
    rw [List.nodup_cons] at hnodup
    by_cases hai : a = i
    · subst hai
      have hfa1 : (decide (a ∉ visited ++ [a])) = false := by
        simp
      have hfa2 : (decide (a ∉ visited)) = true := by
        simpa using hi
      have hcong : L.filter (fun j => j ∉ visited ++ [a]) =
          L.filter (fun j => j ∉ visited) := by
        refine List.filter_congr ?_
        intro b hb
        have hba : b ≠ a := fun hba => hnodup.1 (hba ▸ hb)
        simp [List.mem_append, hba]
      rw [List.filter_cons, hfa1, List.filter_cons, hfa2, if_neg (by simp),
        if_pos rfl, hcong, List.length_cons]
    · have hiL' : i ∈ L := by
        rcases List.mem_cons.mp hiL with h | h
        · exact absurd h.symm hai
        · exact h
      have hsame : (decide (a ∉ visited ++ [i])) = (decide (a ∉ visited)) := by
        simp [List.mem_append, hai]
      rw [List.filter_cons, List.filter_cons, hsame]
      cases hd : (decide (a ∉ visited)) with
      | false =>
        rw [if_neg (by simp), if_neg (by simp)]
        exact ih hiL' hnodup.2
      | true =>
        rw [if_pos rfl, if_pos rfl, List.length_cons, List.length_cons,
          ← ih hiL' hnodup.2]

theorem length_filter_visited_mono (L : List Nat) (visited : List Nat) (i : Nat) :
    (L.filter (fun j => j ∉ visited ++ [i])).length ≤
      (L.filter (fun j => j ∉ visited)).length := by
  rw [← List.countP_eq_length_filter, ← List.countP_eq_length_filter]
  refine List.countP_mono_left ?_
  intro a _ h
  rw [decide_eq_true_eq] at h ⊢
  intro hmem
  exact h (List.mem_append.mpr (Or.inl hmem))

theorem bfs_done (N : Nat) (w : List Slot) (visited group : List Nat)
    (hinv : bfsInv N w [] visited group) : bfsConcl N w [] visited group group := by
  obtain ⟨ha, hb, hc, hd, he⟩ := hinv
  refine ⟨ha, hb, ?_, ?_, fun x hx => hx⟩
  · intro x hx y hny hfy
    rcases hd x hx y hny hfy with h | h
    · exact hc y h hfy
    · exact absurd h (List.not_mem_nil y)
  · intro v hv hfv
    rcases hv with h | h
    · exact hc v h hfv
    · exact absurd h (List.not_mem_nil v)

theorem bfsAux_spec (N : Nat) (w : List Slot) (hlen : w.length = N) :
    ∀ (fuel : Nat) (queue visited group : List Nat),
      bfsInv N w queue visited group →
      queue.length + 2 * ((List.range N).filter (fun j => j ∉ visited)).length ≤ fuel →
      bfsConcl N w queue visited group (bfsAux N w fuel queue visited group) := by
  intro fuel
  induction fuel with
  | zero =>
    intro queue visited group hinv hfuel
    have hq : queue = [] := by
      cases queue with
      | nil => rfl
      | cons q qs => exact absurd hfuel (by simp [List.length_cons])
    subst hq
    exact bfs_done N w visited group hinv
  | succ f ih =>
    intro queue visited group hinv hfuel
    cases queue with
    | nil => exact bfs_done N w visited group hinv
    | cons i rest =>
      obtain ⟨ha, hb, hc, hd, he⟩ := hinv
      simp only [bfsAux]
      by_cases hiv : i ∈ visited
      · rw [if_pos hiv]
        have hd' : ∀ x ∈ group, ∀ y, isNeighbor N x y →
            (w.getD y default).filled = true → y ∈ visited ∨ y ∈ rest := by
          intro x hx y hny hfy
          rcases hd x hx y hny hfy with h | h
          · exact Or.inl h
          · rcases List.mem_cons.mp h with rfl | h
            · exact Or.inl hiv
            · exact Or.inr h
        have hfuel' : rest.length +
            2 * ((List.range N).filter (fun j => j ∉ visited)).length ≤ f := by
          rw [List.length_cons] at hfuel
          omega
        obtain ⟨H1, H2, H3, H4, H5⟩ := ih rest visited group ⟨ha, hb, hc, hd', he⟩ hfuel'
        refine ⟨H1, H2, H3, ?_, H5⟩
        intro v hv hfv
        rcases hv with h | h
        · exact H4 v (Or.inl h) hfv
        · rcases List.mem_cons.mp h with rfl | h
          · exact H4 v (Or.inl hiv) hfv
          · exact H4 v (Or.inr h) hfv
      · rw [if_neg hiv]
        by_cases hfil : (w.getD i default).filled = true
        · rw [if_pos hfil]
          have hiN : i < N := by
            have := filled_getD_lt hfil
            omega
          -- the new loop state
          have hinv' : bfsInv N w
              (if wrapIdx N ((i : Int) + 1) ∉ visited ++ [i] ∧
                  (w.getD (wrapIdx N ((i : Int) + 1)) default).filled = true then
                (if wrapIdx N ((i : Int) - 1 + (N : Int)) ∉ visited ++ [i] ∧
                    (w.getD (wrapIdx N ((i : Int) - 1 + (N : Int))) default).filled = true then
                  rest ++ [wrapIdx N ((i : Int) - 1 + (N : Int))]
                else rest) ++ [wrapIdx N ((i : Int) + 1)]
              else
                (if wrapIdx N ((i : Int) - 1 + (N : Int)) ∉ visited ++ [i] ∧
                    (w.getD (wrapIdx N ((i : Int) - 1 + (N : Int))) default).filled = true then
                  rest ++ [wrapIdx N ((i : Int) - 1 + (N : Int))]
                else rest))
              (visited ++ [i]) (addSet group i) := by
            refine ⟨?_, addSet_nodup hb, ?_, ?_, ?_⟩
            · intro x hx
              rcases mem_addSet.mp hx with h | rfl
              · exact ha x h
              · exact ⟨hiN, hfil⟩
            · intro v hv hfv
              rcases List.mem_append.mp hv with h | h
              · exact subset_addSet (hc v h hfv)
              · rw [List.mem_singleton] at h
                exact mem_addSet.mpr (Or.inr h)
            · intro x hx y hny hfy
              rcases mem_addSet.mp hx with h | rfl
              · rcases hd x h y hny hfy with hvis | hq
                · exact Or.inl (List.mem_append.mpr (Or.inl hvis))
                · rcases List.mem_cons.mp hq with rfl | hq
                  · exact Or.inl (List.mem_append.mpr (Or.inr (by simp)))
                  · refine Or.inr ?_
                    split_ifs with h2 h1 h1
                    · exact List.mem_append.mpr (Or.inl (List.mem_append.mpr (Or.inl hq)))
                    · exact List.mem_append.mpr (Or.inl hq)
                    · exact List.mem_append.mpr (Or.inl hq)
                    · exact hq
              · -- x = i: its two neighbours are queued or already processed
                rcases hny with hy | hy
                · by_cases hcase : y ∈ visited ++ [x]
                  · exact Or.inl hcase
                  · refine Or.inr ?_
                    subst hy
                    split_ifs with h2 h1 h1
                    · exact List.mem_append.mpr (Or.inl (List.mem_append.mpr (Or.inr (by simp))))
                    · exact absurd ⟨hcase, hfy⟩ h1
                    · exact List.mem_append.mpr (Or.inr (by simp))
                    · exact absurd ⟨hcase, hfy⟩ h1
                · by_cases hcase : y ∈ visited ++ [x]
                  · exact Or.inl hcase
                  · refine Or.inr ?_
                    subst hy
                    split_ifs with h2 h1 h1
                    · exact List.mem_append.mpr (Or.inr (by simp))
                    · exact List.mem_append.mpr (Or.inr (by simp))
                    · exact absurd ⟨hcase, hfy⟩ h2
                    · exact absurd ⟨hcase, hfy⟩ h2
            · intro x hx
              rcases mem_addSet.mp hx with h | rfl
              · exact List.mem_append.mpr (Or.inl (he x h))
              · exact List.mem_append.mpr (Or.inr (by simp))
          have hcount := length_filter_visited_append (List.range N) visited i
            (List.mem_range.mpr hiN) (List.nodup_range N) hiv
          have hfuel' : (if wrapIdx N ((i : Int) + 1) ∉ visited ++ [i] ∧
                  (w.getD (wrapIdx N ((i : Int) + 1)) default).filled = true then
                (if wrapIdx N ((i : Int) - 1 + (N : Int)) ∉ visited ++ [i] ∧
                    (w.getD (wrapIdx N ((i : Int) - 1 + (N : Int))) default).filled = true then
                  rest ++ [wrapIdx N ((i : Int) - 1 + (N : Int))]
                else rest) ++ [wrapIdx N ((i : Int) + 1)]
              else
                (if wrapIdx N ((i : Int) - 1 + (N : Int)) ∉ visited ++ [i] ∧
                    (w.getD (wrapIdx N ((i : Int) - 1 + (N : Int))) default).filled = true then
                  rest ++ [wrapIdx N ((i : Int) - 1 + (N : Int))]
                else rest)).length +
              2 * ((List.range N).filter (fun j => j ∉ visited ++ [i])).length ≤ f := by
            have hq2len : (if wrapIdx N ((i : Int) + 1) ∉ visited ++ [i] ∧
                  (w.getD (wrapIdx N ((i : Int) + 1)) default).filled = true then
                (if wrapIdx N ((i : Int) - 1 + (N : Int)) ∉ visited ++ [i] ∧
                    (w.getD (wrapIdx N ((i : Int) - 1 + (N : Int))) default).filled = true then
                  rest ++ [wrapIdx N ((i : Int) - 1 + (N : Int))]
                else rest) ++ [wrapIdx N ((i : Int) + 1)]
              else
                (if wrapIdx N ((i : Int) - 1 + (N : Int)) ∉ visited ++ [i] ∧
                    (w.getD (wrapIdx N ((i : Int) - 1 + (N : Int))) default).filled = true then
                  rest ++ [wrapIdx N ((i : Int) - 1 + (N : Int))]
                else rest)).length ≤ rest.length + 2 := by
              split_ifs <;> simp [List.length_append]
            rw [List.length_cons] at hfuel
            omega
          obtain ⟨H1, H2, H3, H4, H5⟩ := ih _ _ _ hinv' hfuel'
          refine ⟨H1, H2, H3, ?_, fun x hx => H5 x (subset_addSet hx)⟩
          intro v hv hfv
          rcases hv with h | h
          · exact H4 v (Or.inl (List.mem_append.mpr (Or.inl h))) hfv
          · rcases List.mem_cons.mp h with rfl | h
            · exact H4 v (Or.inl (List.mem_append.mpr (Or.inr (by simp)))) hfv
            · refine H4 v (Or.inr ?_) hfv
              split_ifs with h2 h1 h1
              · exact List.mem_append.mpr (Or.inl (List.mem_append.mpr (Or.inl h)))
              · exact List.mem_append.mpr (Or.inl h)
              · exact List.mem_append.mpr (Or.inl h)
              · exact h
        · rw [if_neg hfil]
          have hc' : ∀ v ∈ visited ++ [i], (w.getD v default).filled = true →
              v ∈ group := by
            intro v hv hfv
            rcases List.mem_append.mp hv with h | h
            · exact hc v h hfv
            · rw [List.mem_singleton] at h
              exact absurd (h ▸ hfv) hfil
          have hd' : ∀ x ∈ group, ∀ y, isNeighbor N x y →
              (w.getD y default).filled = true → y ∈ visited ++ [i] ∨ y ∈ rest := by
            intro x hx y hny hfy
            rcases hd x hx y hny hfy with h | h
            · exact Or.inl (List.mem_append.mpr (Or.inl h))
            · rcases List.mem_cons.mp h with rfl | h
              · exact Or.inl (List.mem_append.mpr (Or.inr (by simp)))
              · exact Or.inr h
          have he' : ∀ x ∈ group, x ∈ visited ++ [i] :=
            fun x hx => List.mem_append.mpr (Or.inl (he x hx))
          have hfuel' : rest.length +
              2 * ((List.range N).filter (fun j => j ∉ visited ++ [i])).length ≤ f := by
            have hmono := length_filter_visited_mono (List.range N) visited i
            rw [List.length_cons] at hfuel
            omega
          obtain ⟨H1, H2, H3, H4, H5⟩ := ih rest (visited ++ [i]) group
            ⟨ha, hb, hc', hd', he'⟩ hfuel'
          refine ⟨H1, H2, H3, ?_, H5⟩
          intro v hv hfv
          rcases hv with h | h
          · exact H4 v (Or.inl (List.mem_append.mpr (Or.inl h))) hfv
          · rcases List.mem_cons.mp h with rfl | h
            · exact H4 v (Or.inl (List.mem_append.mpr (Or.inr (by simp)))) hfv
            · exact H4 v (Or.inr h) hfv

theorem findConnectedGroup_spec (N start : Nat) (w : List Slot) (hlen : w.length = N) :
    (∀ x ∈ findConnectedGroup N start w, x < N ∧ (w.getD x default).filled = true) ∧
    (findConnectedGroup N start w).Nodup ∧
    (∀ x ∈ findConnectedGroup N start w, ∀ y, isNeighbor N x y →
      (w.getD y default).filled = true → y ∈ findConnectedGroup N start w) ∧
    ((w.getD start default).filled = true → start ∈ findConnectedGroup N start w) := by
  have hinv : bfsInv N w [start] [] [] := by
    refine ⟨?_, List.nodup_nil, ?_, ?_, ?_⟩ <;> simp
  have hfuel : ([start] : List Nat).length +
      2 * ((List.range N).filter (fun j => j ∉ ([] : List Nat))).length ≤
        2 * (max N w.length) + 1 := by
    rw [hlen, Nat.max_self]
    have : ((List.range N).filter (fun j => j ∉ ([] : List Nat))).length ≤ N := by
      calc ((List.range N).filter (fun j => j ∉ ([] : List Nat))).length
          ≤ (List.range N).length := List.length_filter_le _ _
        _ = N := List.length_range N
    simp only [List.length_singleton]
    omega
  obtain ⟨H1, H2, H3, H4, _⟩ :=
    bfsAux_spec N w hlen (2 * (max N w.length) + 1) [start] [] [] hinv hfuel
  exact ⟨H1, H2, H3, fun hf => H4 start (Or.inr (by simp)) hf⟩

theorem mem_mergeCollisionGroups {N : Nat} {w : List Slot} {ci cg : List Nat} {x : Nat} :
    x ∈ mergeCollisionGroups N w ci cg ↔
      x ∈ cg ∨ ∃ c ∈ ci, x ∈ findConnectedGroup N c w := by
  unfold mergeCollisionGroups
  exact mem_foldl_mergeGroups ci cg

theorem nodup_mergeCollisionGroups {N : Nat} {w : List Slot} {ci cg : List Nat}
    (h : cg.Nodup) : (mergeCollisionGroups N w ci cg).Nodup := by
  unfold mergeCollisionGroups
  exact nodup_foldl_mergeGroups ci cg h

theorem mem_getLeadingEdge {N : Nat} {g : List Nat} {dir : RotationDirection} {x : Nat} :
    x ∈ getLeadingEdge N g dir ↔
      x ∈ g ∧ wrapIdx N ((x : Int) + dirStep dir) ∉ g := by
  unfold getLeadingEdge
  rw [List.mem_filter]
  simp

theorem mem_collisionIndicesOf {N : Nat} {dir : RotationDirection} {w : List Slot}
    {cg : List Nat} {x : Nat} :
    x ∈ collisionIndicesOf N dir w cg ↔
      ∃ e ∈ getLeadingEdge N cg dir,
        ((w.getD (wrapIdx N ((e : Int) + dirStep dir)) default).filled = true ∧
          wrapIdx N ((e : Int) + dirStep dir) ∉ cg) ∧
        wrapIdx N ((e : Int) + dirStep dir) = x := by
  simp only [collisionIndicesOf]
  rw [mem_foldl_addSet_guard (getLeadingEdge N cg dir) []]
  simp

theorem shiftIdx_one {N : Nat} (dir : RotationDirection) (m : Nat) :
    shiftIdx N dir 1 m = wrapIdx N ((m : Int) + dirStep dir) := by
  unfold shiftIdx
  congr 1
  push_cast
  ring

theorem areAllSlotsFilled_getD {w : List Slot} (h : areAllSlotsFilled w = true)
    {j : Nat} (hj : j < w.length) : (w.getD j default).filled = true := by
  rw [areAllSlotsFilled, List.all_eq_true] at h
  rw [List.getD_eq_getElem w default hj]
  exact h _ (List.getElem_mem hj)

theorem wf_mem_of_getD {N : Nat} {w : List Slot} (hlen : w.length = N)
    (hwf1 : ∀ j, j < N → (w.getD j default).filled = false →
      (w.getD j default).tile = none)
    (hwf2 : ∀ j, j < N → (w.getD j default).filled = true →
      (w.getD j default).tile ≠ none) :
    ∀ s ∈ w, s.filled = true ↔ s.tile ≠ none := by
  intro s hs
  obtain ⟨j, hj, rfl⟩ := List.getElem_of_mem hs
  have hgd : w.getD j default = w[j] := List.getD_eq_getElem w default hj
  have hjN : j < N := hlen ▸ hj
  constructor
  · intro hf
    have := hwf2 j hjN (by rw [hgd]; exact hf)
    rw [hgd] at this
    exact this
  · intro ht
    by_contra hne
    have hf : w[j].filled = false := by
      cases hfe : w[j].filled
      · rfl
      · exact absurd hfe hne
    have := hwf1 j hjN (by rw [hgd]; exact hf)
    rw [hgd] at this
    exact ht this

theorem occupiedCount_eq_card {slots : List Slot}
    (h : ∀ s ∈ slots, s.filled = true ↔ s.tile ≠ none) :
    occupiedCount slots = Multiset.card (tileIds slots) := by
  induction slots with
  | nil => rfl
  | cons a l ih =>
    have ha := h a (by simp)
    have hl := fun s hs => h s (List.mem_cons_of_mem a hs)
    rw [tileIds_cons, Multiset.card_add, ← ih hl]
    unfold occupiedCount slotIds
    rw [List.filter_cons]
    cases hf : a.filled
    · have hnone : a.tile = none := by
        by_contra hne
        exact absurd (ha.mpr hne) (by simp [hf])
      rw [hnone]
      simp [occupiedCount]
    · have hsome : a.tile ≠ none := ha.mp hf
      cases ht : a.tile with
      | none => exact absurd ht hsome
      | some t =>
        simp only [occupiedCount, ht]
        simp [Nat.add_comm]

theorem isNeighbor_shift_one {N : Nat} (dir : RotationDirection) (m : Nat) :
    isNeighbor N m (shiftIdx N dir 1 m) := by
  rw [shiftIdx_one]
  cases dir with
  | clockwise => exact Or.inr rfl
  | counterclockwise =>
    refine Or.inl ?_
    apply wrapIdx_congr
    show ((m : Int) + dirStep .counterclockwise) % (N : Int) = _
    have : (m : Int) - 1 + (N : Int) = ((m : Int) + dirStep .counterclockwise) + (N : Int) := by
      show _ = (m : Int) + (-1) + (N : Int)
      ring
    rw [this]
    exact Int.add_emod_self.symm

theorem merged_mem {N : Nat} {dir : RotationDirection} {w : List Slot}
    (hlen : w.length = N) {cg : List Nat}
    (hcg : ∀ x ∈ cg, x < N ∧ (w.getD x default).filled = true) :
    ∀ x ∈ mergeCollisionGroups N w (collisionIndicesOf N dir w cg) cg,
      x < N ∧ (w.getD x default).filled = true := by
  intro x hx
  rcases mem_mergeCollisionGroups.mp hx with h | ⟨c, _, hxc⟩
  · exact hcg x h
  · exact (findConnectedGroup_spec N c w hlen).1 x hxc

theorem merged_dest_free {N : Nat} {dir : RotationDirection}
    {w : List Slot} (hlen : w.length = N) {cg : List Nat} :
    ∀ m ∈ mergeCollisionGroups N w (collisionIndicesOf N dir w cg) cg,
      shiftIdx N dir 1 m ∉ mergeCollisionGroups N w (collisionIndicesOf N dir w cg) cg →
      (w.getD (shiftIdx N dir 1 m) default).filled = false := by
  intro m hm hnot
  by_contra hfilne
  have hfil : (w.getD (shiftIdx N dir 1 m) default).filled = true := by
    cases hfe : (w.getD (shiftIdx N dir 1 m) default).filled
    · exact absurd hfe hfilne
    · rfl
  rcases mem_mergeCollisionGroups.mp hm with hmc | ⟨c, hc, hmc⟩
  · -- m sits in the gap-closed group: its blocked next slot is a collision index
    by_cases hnext : shiftIdx N dir 1 m ∈ cg
    · exact hnot (mem_mergeCollisionGroups.mpr (Or.inl hnext))
    · have hedge : m ∈ getLeadingEdge N cg dir := by
        rw [mem_getLeadingEdge]
        exact ⟨hmc, by rw [← shiftIdx_one]; exact hnext⟩
      have hci : shiftIdx N dir 1 m ∈ collisionIndicesOf N dir w cg := by
        rw [mem_collisionIndicesOf]
        exact ⟨m, hedge, ⟨by rw [← shiftIdx_one]; exact hfil,
          by rw [← shiftIdx_one]; exact hnext⟩, (shiftIdx_one dir m).symm⟩
      have hstart : shiftIdx N dir 1 m ∈
          findConnectedGroup N (shiftIdx N dir 1 m) w :=
        (findConnectedGroup_spec N (shiftIdx N dir 1 m) w hlen).2.2.2 hfil
      exact hnot (mem_mergeCollisionGroups.mpr (Or.inr ⟨_, hci, hstart⟩))
  · -- m was absorbed from the connected group at collision index c:
    -- that group is closed under filled neighbours
    have hclosed := (findConnectedGroup_spec N c w hlen).2.2.1 m hmc
      (shiftIdx N dir 1 m) (isNeighbor_shift_one dir m) hfil
    exact hnot (mem_mergeCollisionGroups.mpr (Or.inr ⟨c, hc, hclosed⟩))

theorem applyGroupMove_ringInv {N : Nat} (hn : 0 < N) {g : List Nat}
    {dir : RotationDirection} {k : Nat} {w : List Slot} (hinv : ringInv N w g)
    (hfree : ∀ o ∈ g, shiftIdx N dir k o ∉ g →
      (w.getD (shiftIdx N dir k o) default).filled = false) :
    tileIds (applyGroupMove N g dir k w).1 = tileIds w ∧
    ringInv N (applyGroupMove N g dir k w).1 (applyGroupMove N g dir k w).2 := by
  obtain ⟨hlen, hwf1, hwf2, hnd, hg⟩ := hinv
  have hrange : ∀ x ∈ g, x < N := fun x hx => (hg x hx).1
  have hfilled : ∀ o ∈ g, (w.getD o default).filled = true := fun o ho => (hg o ho).2
  obtain ⟨H1, H2, H3, H4, H5⟩ :=
    applyGroupMove_invariants hn hlen hrange hwf1 hwf2 hfilled
  exact ⟨applyGroupMove_tileIds hn hlen hrange hwf1 hfree, H1, H2, H3, H4, H5⟩

theorem merge_shift_one_conserves {N : Nat} (hn : 0 < N) {dir : RotationDirection}
    {w : List Slot} {g : List Nat} (hinv : ringInv N w g) :
    tileIds (applyGroupMove N
      (mergeCollisionGroups N w (collisionIndicesOf N dir w g) g) dir 1 w).1 =
        tileIds w ∧
    ringInv N
      (applyGroupMove N
        (mergeCollisionGroups N w (collisionIndicesOf N dir w g) g) dir 1 w).1
      (applyGroupMove N
        (mergeCollisionGroups N w (collisionIndicesOf N dir w g) g) dir 1 w).2 := by
  obtain ⟨hlen, hwf1, hwf2, hnd, hg⟩ := hinv
  have hmerged : ringInv N w (mergeCollisionGroups N w (collisionIndicesOf N dir w g) g) :=
    ⟨hlen, hwf1, hwf2, nodup_mergeCollisionGroups hnd, merged_mem hlen hg⟩
  exact applyGroupMove_ringInv hn hmerged (merged_dest_free hlen)

theorem moveLoopStep_conserves {N : Nat} (hn : 0 < N) {dir : RotationDirection}
    {w : List Slot} {g : List Nat} {r : Nat} (hinv : ringInv N w g) :
    tileIds (moveLoopStep N dir w g r).1 = tileIds w ∧
    ringInv N (moveLoopStep N dir w g r).1 (moveLoopStep N dir w g r).2.1 := by
  have hrange : ∀ x ∈ g, x < N := fun x hx => (hinv.2.2.2.2 x hx).1
  have hdpos : 0 < findDistanceToCollision N g dir w :=
    findDistanceToCollision_pos hn g dir w
  simp only [moveLoopStep]
  by_cases h1 : r < findDistanceToCollision N g dir w
  · rw [if_pos h1]
    exact applyGroupMove_ringInv hn hinv
      (fun o ho hdest => dest_free hn hrange ho h1 hdest)
  · rw [if_neg h1]
    by_cases h2 : 0 < findDistanceToCollision N g dir w - 1
    · rw [if_pos h2]
      have hklt : findDistanceToCollision N g dir w - 1 <
          findDistanceToCollision N g dir w := by omega
      obtain ⟨ht1, ht2⟩ := applyGroupMove_ringInv hn hinv
        (fun o ho hdest => dest_free hn hrange ho hklt hdest)
      by_cases h3 : 0 < r - (findDistanceToCollision N g dir w - 1)
      · rw [if_pos h3]
        obtain ⟨hm1, hm2⟩ := merge_shift_one_conserves hn ht2
        exact ⟨hm1.trans ht1, hm2⟩
      · rw [if_neg h3]
        exact ⟨ht1, ht2⟩
    · rw [if_neg h2]
      by_cases h3 : 0 < r - (findDistanceToCollision N g dir w - 1)
      · rw [if_pos h3]
        exact merge_shift_one_conserves hn hinv
      · rw [if_neg h3]
        exact ⟨rfl, hinv⟩

theorem moveLoopAux_conserves {N : Nat} (hn : 0 < N) (dir : RotationDirection) :
    ∀ (fuel : Nat) (w : List Slot) (g : List Nat) (r : Nat), ringInv N w g →
      tileIds (moveLoopAux N dir fuel w g r).1 = tileIds w ∧
      ringInv N (moveLoopAux N dir fuel w g r).1 (moveLoopAux N dir fuel w g r).2 := by
  intro fuel
  induction fuel with
  | zero => exact fun w g r hinv => ⟨rfl, hinv⟩
  | succ f ih =>
    intro w g r hinv
    rw [moveLoopAux]
    by_cases hr : r = 0
    · rw [if_pos hr]
      exact ⟨rfl, hinv⟩
    · rw [if_neg hr]
      obtain ⟨hs1, hs2⟩ := @moveLoopStep_conserves N hn dir w g r hinv
      obtain ⟨hl1, hl2⟩ := ih (moveLoopStep N dir w g r).1
        (moveLoopStep N dir w g r).2.1 (moveLoopStep N dir w g r).2.2 hs2
      exact ⟨hl1.trans hs1, hl2⟩

theorem moveGroupCore_conserves {N : Nat} (hn : 0 < N) {g : List Nat}
    {dir : RotationDirection} {w : List Slot} {amount : Nat} (hinv : ringInv N w g) :
    tileIds (moveGroupCore N g dir w amount).1 = tileIds w ∧
    ringInv N (moveGroupCore N g dir w amount).1 [] := by
  obtain ⟨hlen, hwf1, hwf2, hnd, hg⟩ := hinv
  simp only [moveGroupCore]
  by_cases hfull : areAllSlotsFilled w = true
  · rw [if_pos hfull]
    have hrangeInv : ringInv N w (List.range N) := by
      refine ⟨hlen, hwf1, hwf2, List.nodup_range N, ?_⟩
      intro x hx
      exact ⟨List.mem_range.mp hx,
        areAllSlotsFilled_getD hfull (by rw [hlen]; exact List.mem_range.mp hx)⟩
    have hfree : ∀ o ∈ List.range N, shiftIdx N dir amount o ∉ List.range N →
        (w.getD (shiftIdx N dir amount o) default).filled = false :=
      fun o _ hdest =>
        absurd (List.mem_range.mpr (shiftIdx_lt hn dir amount o)) hdest
    obtain ⟨h1, h2⟩ := applyGroupMove_ringInv hn hrangeInv hfree
    split
    · exact ⟨h1, h2.1, h2.2.1, h2.2.2.1, List.nodup_nil, by simp⟩
    · exact ⟨h1, h2.1, h2.2.1, h2.2.2.1, List.nodup_nil, by simp⟩
  · rw [if_neg hfull]
    obtain ⟨h1, h2⟩ := moveLoopAux_conserves hn dir amount w g amount
      ⟨hlen, hwf1, hwf2, hnd, hg⟩
    split
    · exact ⟨h1, h2.1, h2.2.1, h2.2.2.1, List.nodup_nil, by simp⟩
    · exact ⟨h1, h2.1, h2.2.1, h2.2.2.1, List.nodup_nil, by simp⟩

theorem tileIds_set (l : List Slot) (j : Nat) (s : Slot) (hj : j < l.length) :
    tileIds (l.set j s) + slotIds (l.getD j default) = tileIds l + slotIds s := by
  rw [tileIds_eq_sum (l.set j s), tileIds_eq_sum l, List.length_set]
  have hjmem : j ∈ Finset.range l.length := Finset.mem_range.mpr hj
  rw [← Finset.sum_erase_add _ _ hjmem, ← Finset.sum_erase_add _ _ hjmem]
  have hpt : ∀ i ∈ (Finset.range l.length).erase j,
      slotIds ((l.set j s).getD i default) = slotIds (l.getD i default) := by
    intro i hi
    have hne : j ≠ i := fun h => (Finset.mem_erase.mp hi).1 h.symm
    rw [getD_set_ne _ hne]
  rw [Finset.sum_congr rfl hpt, getD_set_self _ hj, add_right_comm]

theorem handleSlotClick_slots_eq (st : GameState) (idx : Nat) (t : TileData)
    (hsel : st.selectedTile = some t) :
    (handleSlotClick idx st).slots =
      st.slots.set idx ⟨(st.slots.getD idx default).id, true, some t⟩ := by
  unfold handleSlotClick
  rw [hsel]
  unfold saveToActionUndoStack
  cases getCurrentState st <;> rfl

/-! ### Claim C3: tile conservation under move, growth by one under place -/

/-- C3: for every move whose selected group is non-empty and consists only of
Occupied in-range slots (on a well-formed ring), the multiset of tile ids on
the ring after `moveGroup` equals the multiset before it, and so the
occupied-slot count is unchanged; and a place (`handleSlotClick` with a
selected palette tile) into an Empty slot grows that multiset by exactly the
one placed tile. -/
theorem move_place_tile_conservation
    (st : GameState) (g : List Nat) (dir : RotationDirection) (amount : Nat)
    (hn : 0 < st.slotCount)
    (hlen : st.slots.length = st.slotCount)
    (hwf1 : ∀ j, j < st.slotCount → (st.slots.getD j default).filled = false →
      (st.slots.getD j default).tile = none)
    (hwf2 : ∀ j, j < st.slotCount → (st.slots.getD j default).filled = true →
      (st.slots.getD j default).tile ≠ none)
    (hnd : g.Nodup) (hne : g ≠ [])
    (hocc : ∀ x ∈ g, x < st.slotCount ∧ (st.slots.getD x default).filled = true) :
    tileIds (moveGroup g dir amount st).slots = tileIds st.slots ∧
    occupiedCount (moveGroup g dir amount st).slots = occupiedCount st.slots ∧
    (∀ (j : Nat) (t : TileData), st.selectedTile = some t → j < st.slotCount →
      (st.slots.getD j default).filled = false →
      tileIds (handleSlotClick j st).slots = tileIds st.slots + {t.id}) := by
  have hinv : ringInv st.slotCount st.slots g := ⟨hlen, hwf1, hwf2, hnd, hocc⟩
  obtain ⟨h1, h2⟩ := @moveGroupCore_conserves st.slotCount hn g dir st.slots amount hinv
  have hms : (moveGroup g dir amount st).slots =
      (moveGroupCore st.slotCount g dir st.slots amount).1 := rfl
  refine ⟨by rw [hms]; exact h1, ?_, ?_⟩
  · rw [hms]
    rw [occupiedCount_eq_card (wf_mem_of_getD h2.1 h2.2.1 h2.2.2.1),
      occupiedCount_eq_card (wf_mem_of_getD hlen hwf1 hwf2), h1]
  · intro j t hsel hj hempty
    have htile : (st.slots.getD j default).tile = none := hwf1 j hj hempty
    have hjlen : j < st.slots.length := by rw [hlen]; exact hj
    have hset := tileIds_set st.slots j
      ⟨(st.slots.getD j default).id, true, some t⟩ hjlen
    have h0 : slotIds (st.slots.getD j default) = 0 :=
      @slotIds_of_tile_eq (st.slots.getD j default) ⟨0, false, none⟩ htile
    rw [h0, add_zero] at hset
    rw [handleSlotClick_slots_eq st j t hsel, hset]
    rfl

/-- C3 witness: the conservation statement at the concrete demo state (group
`[0]`, clockwise by 1), with every hypothesis discharged by computation. -/
theorem move_place_tile_conservation_witness :
    (0 < placeDemoState.slotCount ∧
     placeDemoState.slots.length = placeDemoState.slotCount ∧
     ([0] : List Nat).Nodup ∧ ([0] : List Nat) ≠ [] ∧
     (∀ x ∈ ([0] : List Nat), x < placeDemoState.slotCount ∧
       (placeDemoState.slots.getD x default).filled = true)) ∧
    (tileIds (moveGroup [0] .clockwise 1 placeDemoState).slots =
        tileIds placeDemoState.slots ∧
      occupiedCount (moveGroup [0] .clockwise 1 placeDemoState).slots =
        occupiedCount placeDemoState.slots ∧
      (∀ (j : Nat) (t : TileData), placeDemoState.selectedTile = some t →
        j < placeDemoState.slotCount →
        (placeDemoState.slots.getD j default).filled = false →
        tileIds (handleSlotClick j placeDemoState).slots =
          tileIds placeDemoState.slots + {t.id})) :=
  ⟨⟨by decide, by decide, by decide, by decide, by decide⟩,
   move_place_tile_conservation placeDemoState [0] .clockwise 1 (by decide) (by decide)
     (by decide) (by decide) (by decide) (by decide) (by decide)⟩
